import Mathlib

/-!
# CHIP-8 interpreter: shallow embedding and verified properties

The definitions below transcribe `src/graphics.go` (the display grid) and
`src/cpu.go` (the interpreter state and `Execute`).

Conventions of the embedding

* Go `uint8` and `uint16` values are natural numbers; every arithmetic
  operation that can leave the width is followed by an explicit `% 256` or
  `% 65536`.
* Go `int` values (coordinates, program counter, timers, stack entries) are
  mathematical integers.
* The fixed-size arrays `Memory [4096]uint8` and `V [16]uint8` are functions
  from the index; an index outside the array is a run-time crash, checked
  explicitly where the index is not a 4-bit field.
* The slice `Grid [][]bool` is a list of rows; indexing outside a row or
  outside the list of rows is a run-time crash.
* A Go function that returns an `error` and mutates its receiver becomes a
  function into `Outcome`, which carries the receiver as it stands when the
  function returns.
-/

namespace Chip8

/-! ## Results of a call -/

/-- Which coordinate a `DimensionError` complains about. -/
inductive Axis where
  | x
  | y
  deriving DecidableEq, Repr

/-- The Go `DimensionError`. Its `Details` text is one of two formats:
"expected x to be between lo and hi, but received v" (with x or y), and
"expected width and height to be strictly positive, but received w x h
dimensions"; the text is determined by the format and the numbers printed. -/
inductive DimensionError where
  | range (axis : Axis) (lo hi received : Int)
  | size (width height : Int)
  deriving DecidableEq, Repr

/-- Error values returned by the interpreter. -/
inductive Error where
  | dimension (de : DimensionError)
  | unknownOpcode (opcode : Nat)
  deriving DecidableEq, Repr

/-- How a call ends: normally, with a returned `error` value, or with a Go
run-time crash (index out of range), which is not an `error` value and is
not returned to the caller. -/
inductive Outcome (α : Type) where
  | ok (val : α)
  | error (e : Error) (val : α)
  | crash

/-! ## Display grid (`src/graphics.go`) -/

/-- The Go struct `CLIGraphics`. -/
structure CLIGraphics where
  Grid : List (List Bool)
  Width : Int
  Height : Int

namespace CLIGraphics

/-- A grid as built by `Init`: `Height` rows of `Width` cells, both
dimensions strictly positive. -/
def WF (cg : CLIGraphics) : Prop :=
  0 < cg.Width ∧ 0 < cg.Height ∧ (cg.Grid.length : Int) = cg.Height ∧
    ∀ row ∈ cg.Grid, (row.length : Int) = cg.Width

/-- Go `Init`. -/
def Init (width height : Int) : Outcome CLIGraphics :=
  if width ≤ 0 ∨ height ≤ 0 then
    .error (.dimension (.size width height)) ⟨[], 0, 0⟩
  else
    .ok ⟨List.replicate height.toNat (List.replicate width.toNat false), width, height⟩

/-- Go `Clear`: every cell of every row becomes `false`. -/
def Clear (cg : CLIGraphics) : CLIGraphics :=
  { cg with Grid := cg.Grid.map (fun row => row.map (fun _ => false)) }

/-- Go `CheckDimensions`: wrap each coordinate once, then check strictly. -/
def CheckDimensions (cg : CLIGraphics) (x y : Int) : Outcome (Int × Int) :=
  let newX := if x ≥ cg.Width then x - cg.Width else if x < 0 then x + cg.Width else x
  let newY := if y ≥ cg.Height then y - cg.Height else if y < 0 then y + cg.Height else y
  if newX < 0 ∨ newX ≥ cg.Width then
    .error (.dimension (.range .x (-cg.Width) (2 * cg.Width) x)) (-1, -1)
  else if newY < 0 ∨ newY ≥ cg.Height then
    .error (.dimension (.range .y (-cg.Height) (2 * cg.Height) y)) (-1, -1)
  else
    .ok (newX, newY)

/-- Go `CheckDimensionsStrict`; `none` is the Go `nil` error. -/
def CheckDimensionsStrict (cg : CLIGraphics) (x y : Int) : Option Error :=
  if x < 0 ∨ x ≥ cg.Width then
    some (.dimension (.range .x 0 cg.Width x))
  else if y < 0 ∨ y ≥ cg.Height then
    some (.dimension (.range .y 0 cg.Height y))
  else
    none

/-- The Go expression `cg.Grid[y][x]` for non-negative `x`, `y`: `none` when
either index is out of range. -/
def at? (cg : CLIGraphics) (x y : Nat) : Option Bool :=
  match cg.Grid[y]? with
  | none => none
  | some row => row[x]?

/-- The Go assignment `cg.Grid[y][x] = v` (both indices in range). -/
def put (cg : CLIGraphics) (x y : Nat) (v : Bool) : CLIGraphics :=
  { cg with Grid := cg.Grid.modify (fun row => row.set x v) y }

/-- Go `Set`. -/
def Set (cg : CLIGraphics) (x y : Int) (value : Bool) : Outcome CLIGraphics :=
  match cg.CheckDimensionsStrict x y with
  | some e => .error e cg
  | none =>
    match cg.at? x.toNat y.toNat with
    | none => .crash
    | some _ => .ok (cg.put x.toNat y.toNat value)

/-- Go `Toggle`: returns the negation of the cell as it is after the flip. -/
def Toggle (cg : CLIGraphics) (x y : Int) : Outcome (Bool × CLIGraphics) :=
  match cg.CheckDimensions x y with
  | .error e _ => .error e (false, cg)
  | .crash => .crash
  | .ok (newX, newY) =>
    match cg.at? newX.toNat newY.toNat with
    | none => .crash
    | some v =>
      let flipped := !v
      .ok (!flipped, cg.put newX.toNat newY.toNat flipped)

/-- Go `Read`. -/
def Read (cg : CLIGraphics) (x y : Int) : Outcome Bool :=
  match cg.CheckDimensionsStrict x y with
  | some e => .error e false
  | none =>
    match cg.at? x.toNat y.toNat with
    | none => .crash
    | some v => .ok v

end CLIGraphics

/-! ## Interpreter state (`src/cpu.go`) -/

/-- Modelled from the spec: the audio capability (`Speaker`, whose
implementation is not part of the sources at hand) is an on/off tone
generator with `play(frequency_hz)` and `stop()`; its state is the frequency
of the tone being played, if any. -/
structure Speaker where
  Tone : Option Int

/-- The Go struct `CPU`. -/
structure CPU where
  G : CLIGraphics
  S : Speaker
  Memory : Nat → Nat
  V : Nat → Nat
  MemoryAddress : Int
  DelayTimer : Int
  SoundTimer : Int
  PC : Int
  Stack : List Int
  Speed : Int
  Paused : Bool
  I : Nat

/-- Go `var STEP int = 2`. -/
def STEP : Int := 2

/-- Go `var sprites`: the built-in font, five bytes per hexadecimal digit. -/
def sprites : List Nat :=
  [0xF0, 0x90, 0x90, 0x90, 0xF0, -- 0
   0x20, 0x60, 0x20, 0x20, 0x70, -- 1
   0xF0, 0x10, 0xF0, 0x80, 0xF0, -- 2
   0xF0, 0x10, 0xF0, 0x10, 0xF0, -- 3
   0x90, 0x90, 0xF0, 0x10, 0x10, -- 4
   0xF0, 0x80, 0xF0, 0x10, 0xF0, -- 5
   0xF0, 0x80, 0xF0, 0x90, 0xF0, -- 6
   0xF0, 0x10, 0x20, 0x40, 0x40, -- 7
   0xF0, 0x90, 0xF0, 0x90, 0xF0, -- 8
   0xF0, 0x90, 0xF0, 0x10, 0xF0, -- 9
   0xF0, 0x90, 0xF0, 0x90, 0x90, -- A
   0xE0, 0x90, 0xE0, 0x90, 0xE0, -- B
   0xF0, 0x80, 0x80, 0x80, 0xF0, -- C
   0xE0, 0x90, 0x90, 0x90, 0xE0, -- D
   0xF0, 0x80, 0xF0, 0x80, 0xF0, -- E
   0xF0, 0x80, 0xF0, 0x80, 0x80] -- F

/-- Wrapping `uint8` subtraction `a - b`. -/
def sub8 (a b : Nat) : Nat := (a + (256 - b % 256)) % 256

/-- The array assignment `arr[i] = v`. -/
def store (arr : Nat → Nat) (i v : Nat) : Nat → Nat :=
  fun j => if j = i then v else arr j

namespace CPU

/-- The machine types hold: registers and memory cells are bytes, `I` is a
16-bit value. -/
def WF (c : CPU) : Prop :=
  (∀ i, i < 16 → c.V i < 256) ∧ (∀ a, a < 4096 → c.Memory a < 256) ∧ c.I < 65536

/-- Go `loadSpritesToMemory`: `copy(c.Memory[:len(sprites)], sprites)`. -/
def loadSpritesToMemory (c : CPU) : CPU :=
  { c with Memory := fun a => if a < sprites.length then sprites.getD a 0 else c.Memory a }

/-- Go `loadProgramIntoMemory`: `Memory[i+0x200] = program[i]` for each `i`
in turn; an index past the end of memory is a crash. -/
def loadProgramIntoMemory (c : CPU) (program : List Nat) : Outcome CPU :=
  go c.Memory 0 program
where
  /-- The loop of `loadProgramIntoMemory` from index `i` on. -/
  go (mem : Nat → Nat) (i : Nat) : List Nat → Outcome CPU
    | [] => .ok { c with Memory := mem }
    | programVal :: rest =>
      if i + 0x200 < 4096 then go (store mem (i + 0x200) programVal) (i + 1) rest
      else .crash

/-- Inner loop of the draw instruction, `for col := 0; col < width; col++`:
`k` iterations remain, `col` is the loop variable, `sprite` the byte being
shifted out, `vF` the local flag. -/
def drawCols (vx vy row : Int) :
    Nat → Int → Nat → CLIGraphics → Nat → Outcome (CLIGraphics × Nat)
  | 0, _, _, g, vF => .ok (g, vF)
  | k + 1, col, sprite, g, vF =>
    if sprite &&& 0x80 > 0 then
      match g.Toggle (vx + col) (vy + row) with
      | .crash => .crash
      | .error e (_, g1) => .error e (g1, vF)
      | .ok (erased, g1) =>
        drawCols vx vy row k (col + 1) ((sprite <<< 1) % 256) g1 (if erased then 1 else vF)
    else
      drawCols vx vy row k (col + 1) ((sprite <<< 1) % 256) g vF

/-- Outer loop of the draw instruction, `for row := 0; row < height; row++`:
`k` iterations remain, `row` is the loop variable. The sprite byte is
`c.Memory[int(c.I)+row]`. -/
def drawRows (mem : Nat → Nat) (i : Nat) (vx vy : Int) :
    Nat → Nat → CLIGraphics → Nat → Outcome (CLIGraphics × Nat)
  | 0, _, g, vF => .ok (g, vF)
  | k + 1, row, g, vF =>
    if i + row < 4096 then
      match drawCols vx vy row 8 0 (mem (i + row)) g vF with
      | .crash => .crash
      | .error e r => .error e r
      | .ok (g1, vF1) => drawRows mem i vx vy k (row + 1) g1 vF1
    else .crash

/-- The loop of `Fx55`, `for i := uint16(0); i <= x; i++ { c.Memory[c.I+i] = c.V[i] }`:
`k` iterations remain; the index `c.I+i` is a `uint16` sum. -/
def storeRegs (c : CPU) : Nat → Nat → (Nat → Nat) → Option (Nat → Nat)
  | 0, _, mem => some mem
  | k + 1, i, mem =>
    if (c.I + i) % 65536 < 4096 then
      storeRegs c k (i + 1) (store mem ((c.I + i) % 65536) (c.V i))
    else none

/-- The loop of `Fx65`, `for i := uint16(0); i <= x; i++ { c.V[i] = c.Memory[c.I+i] }`:
`k` iterations remain. -/
def loadRegs (c : CPU) : Nat → Nat → (Nat → Nat) → Option (Nat → Nat)
  | 0, _, v => some v
  | k + 1, i, v =>
    if (c.I + i) % 65536 < 4096 then
      loadRegs c k (i + 1) (store v i (c.Memory ((c.I + i) % 65536)))
    else none

/-- Go `Execute`, `case 0x8000`: the inner `switch opcode & 0xF`, with `x`,
`y` the decoded register indices. A value of `opcode & 0xF` without a case
does nothing. -/
def execALU (c : CPU) (opcode x y : Nat) : CPU :=
  let sel := opcode &&& 0xF
  if sel = 0x0 then { c with V := store c.V x (c.V y) }
  else if sel = 0x1 then { c with V := store c.V x (c.V x ||| c.V y) }
  else if sel = 0x2 then { c with V := store c.V x (c.V x &&& c.V y) }
  else if sel = 0x3 then { c with V := store c.V x (c.V x ^^^ c.V y) }
  else if sel = 0x4 then
    let sum := (c.V x + c.V y) % 65536
    let vF := if sum > 0xff then 1 else 0
    let v1 := store c.V x ((c.V x + c.V y) % 256)
    { c with V := store v1 0xf vF }
  else if sel = 0x5 then
    let vF := if c.V x > c.V y then 1 else 0
    let v1 := store c.V x (sub8 (c.V x) (c.V y))
    { c with V := store v1 0xf vF }
  else if sel = 0x6 then
    let vF := if 0x1 &&& c.V x ≠ 0 then 1 else 0
    let v1 := store c.V x (c.V x >>> 1)
    { c with V := store v1 0xf vF }
  else if sel = 0x7 then
    let vF := if c.V y > c.V x then 1 else 0
    let v1 := store c.V x (sub8 (c.V y) (c.V x))
    { c with V := store v1 0xf vF }
  else if sel = 0xE then
    let vF := if c.V x &&& 0b10000000 ≠ 0 then 1 else 0
    let v1 := store c.V x ((c.V x <<< 1) % 256)
    { c with V := store v1 0xf vF }
  else c

/-- Go `Execute`, `case 0xF000`: the inner `switch opcode & 0xFF`. A value
of `opcode & 0xFF` without a case does nothing. -/
def execMisc (c : CPU) (opcode x : Nat) : Outcome CPU :=
  let sel := opcode &&& 0xFF
  if sel = 0x07 then .ok { c with V := store c.V x (c.DelayTimer % 256).toNat }
  else if sel = 0x0A then .ok c
  else if sel = 0x15 then .ok { c with DelayTimer := (c.V x : Int) }
  else if sel = 0x18 then .ok { c with SoundTimer := (c.V x : Int) }
  else if sel = 0x1E then .ok { c with I := (c.I + c.V x) % 65536 }
  else if sel = 0x29 then .ok { c with I := (c.V x * 5) % 256 }
  else if sel = 0x33 then
    let unit := c.V x % 10
    let tens := (sub8 (c.V x) unit / 10) % 10
    let hundreds := (sub8 (sub8 (c.V x) unit) ((tens * 10) % 256) / 100) % 10
    if (c.I + 2) % 65536 < 4096 then
      let m1 := store c.Memory ((c.I + 2) % 65536) unit
      if (c.I + 1) % 65536 < 4096 then
        let m2 := store m1 ((c.I + 1) % 65536) tens
        if c.I < 4096 then .ok { c with Memory := store m2 c.I hundreds }
        else .crash
      else .crash
    else .crash
  else if sel = 0x55 then
    match storeRegs c (x + 1) 0 c.Memory with
    | some mem => .ok { c with Memory := mem }
    | none => .crash
  else if sel = 0x65 then
    match loadRegs c (x + 1) 0 c.V with
    | some v => .ok { c with V := v }
    | none => .crash
  else .ok c

/-- Go `Execute`. The argument `rnd` is the value `rand.Intn(256)` returns
if the instruction asks for it. The receiver is first advanced by `STEP`;
the fields `nnn`, `y`, `x`, `kk` are decoded as in the source. -/
def Execute (rnd : Nat) (c0 : CPU) (opcode : Nat) : Outcome CPU :=
  let c : CPU := { c0 with PC := c0.PC + STEP }
  let nnn := 0x0fff &&& opcode
  let y := (0x00f0 &&& opcode) >>> 4
  let x := (0x0f00 &&& opcode) >>> 8
  let kk := (0x00ff &&& opcode) % 256
  let top := opcode &&& 0xF000
  if top = 0x0000 then
    if opcode = 0x00E0 then .ok { c with G := c.G.Clear }
    else if opcode = 0x00EE then
      match c.Stack.getLast? with
      | none => .crash
      | some ret => .ok { c with PC := ret, Stack := c.Stack.dropLast }
    else .ok c
  else if top = 0x1000 then .ok { c with PC := (nnn : Int) }
  else if top = 0x2000 then .ok { c with Stack := c.Stack ++ [c.PC], PC := (nnn : Int) }
  else if top = 0x3000 then
    if c.V x = kk then .ok { c with PC := c.PC + STEP } else .ok c
  else if top = 0x4000 then
    if c.V x ≠ kk then .ok { c with PC := c.PC + STEP } else .ok c
  else if top = 0x5000 then
    if c.V x = c.V y then .ok { c with PC := c.PC + STEP } else .ok c
  else if top = 0x6000 then .ok { c with V := store c.V x kk }
  else if top = 0x7000 then .ok { c with V := store c.V x ((c.V x + kk) % 256) }
  else if top = 0x8000 then .ok (execALU c opcode x y)
  else if top = 0x9000 then
    if c.V x ≠ c.V y then .ok { c with PC := c.PC + 2 } else .ok c
  else if top = 0xA000 then .ok { c with I := nnn }
  else if top = 0xB000 then .ok { c with PC := (nnn : Int) + (c.V 0 : Int) }
  else if top = 0xC000 then .ok { c with V := store c.V x (kk &&& (rnd % 256)) }
  else if top = 0xD000 then
    let height := opcode &&& 0xf
    match drawRows c.Memory c.I (c.V x) (c.V y) height 0 c.G 0 with
    | .crash => .crash
    | .error e (g, _) => .error e { c with G := g }
    | .ok (g, vF) => .ok { c with G := g, V := store c.V 0xf vF }
  else if top = 0xE000 then .ok c
  else if top = 0xF000 then execMisc c opcode x
  else .error (.unknownOpcode opcode) c

/-- Go `updateTimers`. -/
def updateTimers (c : CPU) : CPU :=
  let c1 := if c.DelayTimer > 0 then { c with DelayTimer := c.DelayTimer - 1 } else c
  if c1.SoundTimer > 0 then { c1 with SoundTimer := c1.SoundTimer - 1 } else c1

/-- Go `playSounds`: `Play(440)` while the sound timer is positive, `Stop()`
otherwise. -/
def playSounds (c : CPU) : CPU :=
  if c.SoundTimer > 0 then { c with S := ⟨some 440⟩ } else { c with S := ⟨none⟩ }

/-- The loop of Go `Cycle`, `for i := 0; i < c.Speed; i++`: `k` iterations
remain, `i` is the loop variable, `rnd i` the random value available to the
instruction of iteration `i`. The opcode is
`binary.BigEndian.Uint16(c.Memory[c.PC : c.PC+2])`; a slice that does not fit
in the array is a crash. -/
def cycleLoop (rnd : Nat → Nat) : Nat → Nat → CPU → Outcome CPU
  | 0, _, c => .ok c
  | k + 1, i, c =>
    if !c.Paused then
      if 0 ≤ c.PC ∧ c.PC + 2 ≤ 4096 then
        let opcode := (c.Memory c.PC.toNat <<< 8) ||| c.Memory (c.PC.toNat + 1)
        match Execute (rnd i) c opcode with
        | .crash => .crash
        | .error e c1 => .error e c1
        | .ok c1 => cycleLoop rnd k (i + 1) c1
      else .crash
    else cycleLoop rnd k (i + 1) c

/-- Go `Cycle`: `Speed` instructions, then the timers, the speaker and
the renderer (which changes no state). `Execute` never assigns `Speed`, so
the loop bound `i < c.Speed` is the value of `Speed` on entry. -/
def Cycle (rnd : Nat → Nat) (c : CPU) : Outcome CPU :=
  match cycleLoop rnd c.Speed.toNat 0 c with
  | .crash => .crash
  | .error e c1 => .error e c1
  | .ok c1 => .ok (playSounds (updateTimers c1))

end CPU

/-! ## The draw instruction as the spec words it

`Dxyn`: "for each of the `n` sprite bytes read sequentially from memory
starting at `I`, for each of its 8 bits (most-significant first), if set,
toggle the display cell at `(Vx + column, Vy + row)`". -/

/-- The coordinates one sprite byte `b` asks to toggle on row `row`, most
significant bit first. -/
def rowCells (b : Nat) (vx vy : Int) (row : Nat) : List (Int × Int) :=
  (List.range 8).filterMap fun col =>
    if b.testBit (7 - col) then some (vx + (col : Int), vy + (row : Int)) else none

/-- The coordinates a draw of `height` rows asks to toggle, in the order
the instruction visits them. -/
def spriteCells (mem : Nat → Nat) (i : Nat) (vx vy : Int) (height : Nat) : List (Int × Int) :=
  (List.range height).flatMap fun row => rowCells (mem (i + row)) vx vy row

/-- Toggling a list of coordinates in turn, with the flag handling of the
draw loop: stop at the first toggle that fails, raise the flag to 1 when a
toggle reports an erased cell. -/
def toggleList : CLIGraphics → Nat → List (Int × Int) → Outcome (CLIGraphics × Nat)
  | g, vF, [] => .ok (g, vF)
  | g, vF, p :: ps =>
    match g.Toggle p.1 p.2 with
    | .crash => .crash
    | .error e (_, g1) => .error e (g1, vF)
    | .ok (erased, g1) => toggleList g1 (if erased then 1 else vF) ps

/-- The grid after the coordinates in `cells` have been toggled in turn (a
toggle that fails leaves the grid as it is). -/
def gridAfter (g : CLIGraphics) (cells : List (Int × Int)) : CLIGraphics :=
  cells.foldl (fun g p => match g.Toggle p.1 p.2 with
    | .ok (_, g1) => g1
    | _ => g) g

/-! ## Running several instructions -/

/-- Executing the opcodes of a list one after the other with `Execute`,
stopping at the first one that does not return normally. -/
def runOps (rnd : Nat) : CPU → List Nat → Outcome CPU
  | c, [] => .ok c
  | c, op :: ops =>
    match CPU.Execute rnd c op with
    | .ok c1 => runOps rnd c1 ops
    | r => r

/-- The return addresses of a chain of calls: the first call is executed at
program counter `p`, each later one at the target of the call before it, and
each pushes the address that follows it. -/
def returnAddrs : Int → List Nat → List Int
  | _, [] => []
  | p, t :: ts => (p + 2) :: returnAddrs (t : Int) ts

/-! ## Reachable states -/

/-- The opcodes whose control transfers keep the program counter even in
state `s`: a jump `1nnn` or call `2nnn` has an even `nnn`, and a `Bnnn` has
`nnn + V0` even. -/
def evenTargets (s : CPU) (op : Nat) : Prop :=
  (op / 4096 % 16 = 1 ∨ op / 4096 % 16 = 2 → op % 2 = 0) ∧
  (op / 4096 % 16 = 11 → (op % 4096 + s.V 0) % 2 = 0)

/-- The states reachable from `s0` by successful `Execute` calls, each on an
opcode (and random value) that `allowed` admits in the state it runs in. -/
inductive Reach (allowed : CPU → Nat → Prop) (s0 : CPU) : CPU → Prop where
  | init : Reach allowed s0 s0
  | step {s s' : CPU} (rnd op : Nat) :
      Reach allowed s0 s → allowed s op → CPU.Execute rnd s op = .ok s' → Reach allowed s0 s'

/-! ## The instructions of a cycle -/

/-- The opcode `Cycle` fetches in state `c`,
`binary.BigEndian.Uint16(c.Memory[c.PC : c.PC+2])`; `none` when the slice
does not fit in memory. -/
def fetch (c : CPU) : Option Nat :=
  if 0 ≤ c.PC ∧ c.PC + 2 ≤ 4096 then
    some ((c.Memory c.PC.toNat <<< 8) ||| c.Memory (c.PC.toNat + 1))
  else none

/-- `Steps rnd i c k c'`: from state `c`, the `k` instructions fetched and
executed one after the other (the first with the random value `rnd i`) all
return normally, and `c'` is the state after the last of them. -/
inductive Steps (rnd : Nat → Nat) : Nat → CPU → Nat → CPU → Prop where
  | done (i : Nat) (c : CPU) : Steps rnd i c 0 c
  | next {i : Nat} {c c1 c' : CPU} {op k : Nat} :
      fetch c = some op → CPU.Execute (rnd i) c op = .ok c1 → Steps rnd (i + 1) c1 k c' →
      Steps rnd i c (k + 1) c'

/-! ## States used to run the definitions on concrete inputs -/

/-- The machine `main` builds before a ROM is copied in: a 64 x 32 display
(`cg.Init(64, 32)`), `Speed: 60`, every other field at its Go zero value,
then `Init`: the font loaded at address 0 and `PC = 0x200`. -/
def boot : CPU :=
  { G := ⟨List.replicate 32 (List.replicate 64 false), 64, 32⟩
    S := ⟨none⟩
    Memory := fun a => if a < sprites.length then sprites.getD a 0 else 0
    V := fun _ => 0
    MemoryAddress := 0
    DelayTimer := 0
    SoundTimer := 0
    PC := 0x200
    Stack := []
    Speed := 60
    Paused := false
    I := 0 }

/-- The state `boot` with the registers given by `v`. -/
def bootWith (v : Nat → Nat) : CPU := { boot with V := v }

/-- The 64 x 32 display of `boot` with the glyph of digit 0 drawn in its top
left corner. -/
def glyphGrid : CLIGraphics :=
  gridAfter boot.G (spriteCells boot.Memory boot.I 0 0 5)

/-- The machine `boot` with the glyph of digit 0 already on the display. -/
def glyphDrawn : CPU := { boot with G := glyphGrid }

/-- The machine `boot` at speed 3 with the program `60C8 D015` loaded at
0x200 and the delay and sound timers at 3 and 1. -/
def progState : CPU :=
  { boot with
    Speed := 3
    DelayTimer := 3
    SoundTimer := 1
    Memory := store (store (store (store boot.Memory 0x200 0x60) 0x201 0xC8) 0x202 0xD0)
      0x203 0x15 }

/-! ## Decoding lemmas -/

/-- Masking with a run of `w` ones starting at bit `s` extracts a field. -/
theorem and_field (op w s mask : Nat) (hm : mask = (2 ^ w - 1) <<< s) :
    op &&& mask = (op / 2 ^ s % 2 ^ w) * 2 ^ s := by
  subst hm
  apply Nat.eq_of_testBit_eq
  intro i
  rw [← Nat.shiftLeft_eq, ← Nat.shiftRight_eq_div_pow, Nat.testBit_and, Nat.testBit_shiftLeft,
    Nat.testBit_shiftLeft, Nat.testBit_mod_two_pow, Nat.testBit_shiftRight,
    Nat.testBit_two_pow_sub_one]
  by_cases h : s ≤ i
  · have e : s + (i - s) = i := by omega
    by_cases h2 : i - s < w <;> simp [h, h2, e]
  · simp [h]

theorem dec_top (op : Nat) : op &&& 0xF000 = (op / 4096 % 16) * 4096 :=
  and_field op 4 12 0xF000 (by decide)

theorem dec_x (op : Nat) : (0x0f00 &&& op) >>> 8 = op / 256 % 16 := by
  rw [Nat.and_comm, and_field op 4 8 0x0f00 (by decide), Nat.shiftRight_eq_div_pow]
  omega

theorem dec_y (op : Nat) : (0x00f0 &&& op) >>> 4 = op / 16 % 16 := by
  rw [Nat.and_comm, and_field op 4 4 0x00f0 (by decide), Nat.shiftRight_eq_div_pow]
  omega

theorem dec_nnn (op : Nat) : 0x0fff &&& op = op % 4096 := by
  rw [Nat.and_comm, and_field op 12 0 0x0fff (by decide)]
  omega

theorem dec_kk (op : Nat) : 0x00ff &&& op = op % 256 := by
  rw [Nat.and_comm, and_field op 8 0 0x00ff (by decide)]
  omega

theorem dec_lo8 (op : Nat) : op &&& 0xFF = op % 256 := by
  rw [and_field op 8 0 0xFF (by decide)]
  omega

theorem dec_n (op : Nat) : op &&& 0xF = op % 16 := by
  rw [and_field op 4 0 0xF (by decide)]
  omega

theorem and_bit7 (v : Nat) : v &&& 0x80 = (v / 128 % 2) * 128 :=
  and_field v 1 7 0x80 (by decide)

theorem and_bit0 (v : Nat) : 0x1 &&& v = v % 2 := by
  rw [Nat.and_comm, and_field v 1 0 0x1 (by decide)]
  omega

/-- Every byte of the font table fits in 8 bits. -/
theorem sprites_lt : ∀ v ∈ sprites, v < 256 := by decide

theorem boot_WF : boot.WF := by
  refine ⟨fun i _ => by simp [boot], fun a _ => ?_, by simp [boot]⟩
  show (if a < sprites.length then sprites.getD a 0 else 0) < 256
  split
  · next h =>
    rw [List.getD_eq_getElem _ _ h]
    exact sprites_lt _ (List.getElem_mem _)
  · decide

theorem bootWith_WF (v : Nat → Nat) (hv : ∀ i, i < 16 → v i < 256) : (bootWith v).WF :=
  ⟨hv, boot_WF.2.1, boot_WF.2.2⟩

/-! ## Arithmetic and shift instructions (`8xy_`) -/

/-- An opcode whose top nibble is 8 runs the inner arithmetic switch on the
advanced state and returns no error. -/
theorem Execute_family8 (rnd : Nat) (c : CPU) (op : Nat) (h : op / 4096 % 16 = 8) :
    CPU.Execute rnd c op =
      .ok (CPU.execALU { c with PC := c.PC + STEP } op (op / 256 % 16) (op / 16 % 16)) := by
  simp [CPU.Execute, dec_top, dec_x, dec_y, h]

/-- C1, as the code has it: on every state whose registers are bytes and
for all register indices x, y, `8xy4` returns no error and leaves
VF = 1 if Vx + Vy > 255 and VF = 0 otherwise; when x is not 0xF it leaves
Vx = (Vx + Vy) mod 256. -/
theorem add_carry (rnd : Nat) (s : CPU) (x y : Nat) (hx : x < 16) (hy : y < 16) (hs : s.WF) :
    ∃ s', CPU.Execute rnd s (0x8004 + 0x100 * x + 0x10 * y) = .ok s' ∧
      s'.V 0xF = (if s.V x + s.V y > 255 then 1 else 0) ∧
      (x ≠ 0xF → s'.V x = (s.V x + s.V y) % 256) := by
  have h1 : (0x8004 + 0x100 * x + 0x10 * y) / 4096 % 16 = 8 := by omega
  have h2 : (0x8004 + 0x100 * x + 0x10 * y) / 256 % 16 = x := by omega
  have h3 : (0x8004 + 0x100 * x + 0x10 * y) / 16 % 16 = y := by omega
  have h4 : (0x8004 + 0x100 * x + 0x10 * y) % 16 = 4 := by omega
  have hvx := hs.1 x hx
  have hvy := hs.1 y hy
  rw [Execute_family8 _ _ _ h1, h2, h3]
  refine ⟨_, rfl, ?_, ?_⟩
  · simp only [CPU.execALU, dec_n, h4]
    simp [store]
    rw [Nat.mod_eq_of_lt (by omega)]
  · intro hne
    simp only [CPU.execALU, dec_n, h4]
    simp [store, hne]

theorem add_carry_witness :
    ∃ s', CPU.Execute 0 (bootWith fun i => if i = 1 then 200 else 100)
        (0x8004 + 0x100 * 1 + 0x10 * 2) = .ok s' ∧
      s'.V 0xF = (if (if (1 : Nat) = 1 then 200 else 100) + (if (2 : Nat) = 1 then 200 else 100)
        > 255 then 1 else 0) ∧
      ((1 : Nat) ≠ 0xF → s'.V 1 =
        ((if (1 : Nat) = 1 then 200 else 100) + (if (2 : Nat) = 1 then 200 else 100)) % 256) :=
  add_carry 0 (bootWith fun i => if i = 1 then 200 else 100) 1 2 (by decide) (by decide)
    (bootWith_WF _ (fun i _ => by split <;> decide))

/-- C1 read literally fails when x is 0xF: with VF = 1 and V0 = 1 the
instruction `8F04` leaves VF = 0 (the carry flag), not (1 + 1) mod 256 = 2. -/
theorem add_carry_flag_register_counterexample :
    (bootWith fun _ => 1).WF ∧
    ∃ s', CPU.Execute 0 (bootWith fun _ => 1) 0x8F04 = .ok s' ∧ s'.V 0xF = 0 ∧
      ((bootWith fun _ => 1).V 0xF + (bootWith fun _ => 1).V 0x0) % 256 = 2 := by
  refine ⟨bootWith_WF _ (fun _ _ => by decide), _, Execute_family8 _ _ _ (by decide), ?_, ?_⟩
  · simp [CPU.execALU, dec_n, store, bootWith]
  · simp [bootWith]

/-- Wrapping byte subtraction is subtraction modulo 256. -/
theorem sub8_int (a b : Nat) :
    (sub8 a b : Int) = ((a : Int) - (b : Int)) % 256 := by
  unfold sub8
  omega

/-- C2: for x other than 0xF, `8xy5` leaves VF = 1 iff Vx > Vy (else 0) and Vx = (Vx - Vy) mod 256, and `8xy7`
leaves VF = 1 iff Vy > Vx (else 0) and Vx = (Vy - Vx) mod 256, both without
error; Vy keeps its value when y is neither x nor 0xF. -/
theorem sub_borrow (rnd : Nat) (s : CPU) (x y : Nat) (hx : x < 16) (hxF : x ≠ 0xF)
    (hy : y < 16) :
    (∃ s', CPU.Execute rnd s (0x8005 + 0x100 * x + 0x10 * y) = .ok s' ∧
      s'.V 0xF = (if s.V x > s.V y then 1 else 0) ∧
      (s'.V x : Int) = ((s.V x : Int) - (s.V y : Int)) % 256 ∧
      (y ≠ x → y ≠ 0xF → s'.V y = s.V y)) ∧
    (∃ s', CPU.Execute rnd s (0x8007 + 0x100 * x + 0x10 * y) = .ok s' ∧
      s'.V 0xF = (if s.V y > s.V x then 1 else 0) ∧
      (s'.V x : Int) = ((s.V y : Int) - (s.V x : Int)) % 256 ∧
      (y ≠ x → y ≠ 0xF → s'.V y = s.V y)) := by
  constructor
  · have h1 : (0x8005 + 0x100 * x + 0x10 * y) / 4096 % 16 = 8 := by omega
    have h2 : (0x8005 + 0x100 * x + 0x10 * y) / 256 % 16 = x := by omega
    have h3 : (0x8005 + 0x100 * x + 0x10 * y) / 16 % 16 = y := by omega
    have h4 : (0x8005 + 0x100 * x + 0x10 * y) % 16 = 5 := by omega
    rw [Execute_family8 _ _ _ h1, h2, h3]
    refine ⟨_, rfl, ?_, ?_, ?_⟩
    · simp [CPU.execALU, dec_n, h4, store]
    · simp only [CPU.execALU, dec_n, h4]
      simp [store, hxF]
      exact sub8_int _ _
    · intro hyx hyF
      simp only [CPU.execALU, dec_n, h4]
      simp [store, hyx, hyF]
  · have h1 : (0x8007 + 0x100 * x + 0x10 * y) / 4096 % 16 = 8 := by omega
    have h2 : (0x8007 + 0x100 * x + 0x10 * y) / 256 % 16 = x := by omega
    have h3 : (0x8007 + 0x100 * x + 0x10 * y) / 16 % 16 = y := by omega
    have h4 : (0x8007 + 0x100 * x + 0x10 * y) % 16 = 7 := by omega
    rw [Execute_family8 _ _ _ h1, h2, h3]
    refine ⟨_, rfl, ?_, ?_, ?_⟩
    · simp [CPU.execALU, dec_n, h4, store]
    · simp only [CPU.execALU, dec_n, h4]
      simp [store, hxF]
      exact sub8_int _ _
    · intro hyx hyF
      simp only [CPU.execALU, dec_n, h4]
      simp [store, hyx, hyF]

theorem sub_borrow_witness :
    (∃ s', CPU.Execute 0 (bootWith fun i => if i = 1 then 3 else 5)
        (0x8005 + 0x100 * 1 + 0x10 * 2) = .ok s' ∧
      s'.V 0xF = (if (bootWith fun i => if i = 1 then 3 else 5).V 1 >
        (bootWith fun i => if i = 1 then 3 else 5).V 2 then 1 else 0) ∧
      (s'.V 1 : Int) = (((bootWith fun i => if i = 1 then 3 else 5).V 1 : Int) -
        ((bootWith fun i => if i = 1 then 3 else 5).V 2 : Int)) % 256 ∧
      ((2 : Nat) ≠ 1 → (2 : Nat) ≠ 0xF →
        s'.V 2 = (bootWith fun i => if i = 1 then 3 else 5).V 2)) ∧
    (∃ s', CPU.Execute 0 (bootWith fun i => if i = 1 then 3 else 5)
        (0x8007 + 0x100 * 1 + 0x10 * 2) = .ok s' ∧
      s'.V 0xF = (if (bootWith fun i => if i = 1 then 3 else 5).V 2 >
        (bootWith fun i => if i = 1 then 3 else 5).V 1 then 1 else 0) ∧
      (s'.V 1 : Int) = (((bootWith fun i => if i = 1 then 3 else 5).V 2 : Int) -
        ((bootWith fun i => if i = 1 then 3 else 5).V 1 : Int)) % 256 ∧
      ((2 : Nat) ≠ 1 → (2 : Nat) ≠ 0xF →
        s'.V 2 = (bootWith fun i => if i = 1 then 3 else 5).V 2)) :=
  sub_borrow 0 (bootWith fun i => if i = 1 then 3 else 5) 1 2 (by decide) (by decide)
    (by decide)

/-- C3: for all register indices x, y, `8xy6` returns no error and leaves
VF = bit 0 of the old Vx and, when x is not 0xF, Vx = old Vx >> 1; `8xyE`
returns no error and leaves VF = bit 7 of the old Vx and, when x is not 0xF,
Vx = (old Vx << 1) mod 256. Vy is not read: the outcome is the same for
every y field, and giving Vy (y other than x) another value changes neither
the flag nor the new Vx. -/
theorem shift_flag (rnd : Nat) (s : CPU) (x y : Nat) (hx : x < 16) (hy : y < 16) :
    (∃ s', CPU.Execute rnd s (0x8006 + 0x100 * x + 0x10 * y) = .ok s' ∧
      s'.V 0xF = s.V x % 2 ∧ (x ≠ 0xF → s'.V x = s.V x >>> 1) ∧
      CPU.Execute rnd s (0x8006 + 0x100 * x + 0x10 * y) =
        CPU.Execute rnd s (0x8006 + 0x100 * x) ∧
      ∀ v, y ≠ x → ∃ t', CPU.Execute rnd { s with V := store s.V y v }
          (0x8006 + 0x100 * x + 0x10 * y) = .ok t' ∧
        t'.V 0xF = s'.V 0xF ∧ t'.V x = s'.V x) ∧
    (∃ s', CPU.Execute rnd s (0x800E + 0x100 * x + 0x10 * y) = .ok s' ∧
      s'.V 0xF = s.V x / 128 % 2 ∧ (x ≠ 0xF → s'.V x = (s.V x <<< 1) % 256) ∧
      CPU.Execute rnd s (0x800E + 0x100 * x + 0x10 * y) =
        CPU.Execute rnd s (0x800E + 0x100 * x) ∧
      ∀ v, y ≠ x → ∃ t', CPU.Execute rnd { s with V := store s.V y v }
          (0x800E + 0x100 * x + 0x10 * y) = .ok t' ∧
        t'.V 0xF = s'.V 0xF ∧ t'.V x = s'.V x) := by
  constructor
  · have h1 : (0x8006 + 0x100 * x + 0x10 * y) / 4096 % 16 = 8 := by omega
    have h2 : (0x8006 + 0x100 * x + 0x10 * y) / 256 % 16 = x := by omega
    have h3 : (0x8006 + 0x100 * x + 0x10 * y) / 16 % 16 = y := by omega
    have h4 : (0x8006 + 0x100 * x + 0x10 * y) % 16 = 6 := by omega
    have k1 : (0x8006 + 0x100 * x) / 4096 % 16 = 8 := by omega
    have k2 : (0x8006 + 0x100 * x) / 256 % 16 = x := by omega
    have k4 : (0x8006 + 0x100 * x) % 16 = 6 := by omega
    rw [Execute_family8 _ _ _ h1, Execute_family8 _ _ _ k1, h2, h3, k2]
    refine ⟨_, rfl, ?_, ?_, ?_, ?_⟩
    · simp only [CPU.execALU, dec_n, h4, and_bit0]
      rcases Nat.mod_two_eq_zero_or_one (s.V x) with h | h <;> simp [store, h]
    · intro hne
      simp only [CPU.execALU, dec_n, h4]
      simp [store, hne]
    · simp only [CPU.execALU, dec_n, h4, k4]
      simp
    · intro v hyx
      rw [Execute_family8 _ _ _ h1, h2, h3]
      have hxy : x ≠ y := fun h => hyx h.symm
      refine ⟨_, rfl, ?_, ?_⟩
      · simp only [CPU.execALU, dec_n, h4]
        simp [store, hxy]
      · simp only [CPU.execALU, dec_n, h4]
        simp [store, hxy]
  · have h1 : (0x800E + 0x100 * x + 0x10 * y) / 4096 % 16 = 8 := by omega
    have h2 : (0x800E + 0x100 * x + 0x10 * y) / 256 % 16 = x := by omega
    have h3 : (0x800E + 0x100 * x + 0x10 * y) / 16 % 16 = y := by omega
    have h4 : (0x800E + 0x100 * x + 0x10 * y) % 16 = 14 := by omega
    have k1 : (0x800E + 0x100 * x) / 4096 % 16 = 8 := by omega
    have k2 : (0x800E + 0x100 * x) / 256 % 16 = x := by omega
    have k4 : (0x800E + 0x100 * x) % 16 = 14 := by omega
    rw [Execute_family8 _ _ _ h1, Execute_family8 _ _ _ k1, h2, h3, k2]
    refine ⟨_, rfl, ?_, ?_, ?_, ?_⟩
    · simp only [CPU.execALU, dec_n, h4, and_bit7]
      rcases Nat.mod_two_eq_zero_or_one (s.V x / 128) with h | h <;> simp [store, h]
    · intro hne
      simp only [CPU.execALU, dec_n, h4]
      simp [store, hne]
    · simp only [CPU.execALU, dec_n, h4, k4]
      simp
    · intro v hyx
      rw [Execute_family8 _ _ _ h1, h2, h3]
      have hxy : x ≠ y := fun h => hyx h.symm
      refine ⟨_, rfl, ?_, ?_⟩
      · simp only [CPU.execALU, dec_n, h4]
        simp [store, hxy]
      · simp only [CPU.execALU, dec_n, h4]
        simp [store, hxy]

theorem shift_flag_witness :
    ∃ s', CPU.Execute 0 (bootWith fun _ => 0x81) (0x8006 + 0x100 * 1 + 0x10 * 2) = .ok s' ∧
      s'.V 0xF = 1 ∧ s'.V 1 = 0x40 := by
  obtain ⟨s', h, hF, hx, _⟩ :=
    (shift_flag 0 (bootWith fun _ => 0x81) 1 2 (by decide) (by decide)).1
  exact ⟨s', h, by simpa [bootWith] using hF, by simpa [bootWith] using hx (by decide)⟩

/-! ## The display grid: wrapping, toggling, reading -/

theorem wrap_eq_emod (x w : Int) (h1 : -w ≤ x) (h2 : x < 2 * w) :
    (if x ≥ w then x - w else if x < 0 then x + w else x) = x % w := by
  split
  · next h =>
    have e : x % w = (x - w) % w := (Int.emod_sub_cancel x w).symm
    rw [e, Int.emod_eq_of_lt (by omega) (by omega)]
  · split
    · have e : x % w = (x + w) % w := by simp
      rw [e, Int.emod_eq_of_lt (by omega) (by omega)]
    · rw [Int.emod_eq_of_lt (by omega) (by omega)]

theorem CheckDimensions_ok (cg : CLIGraphics) (x y : Int) (hW : 0 < cg.Width)
    (hH : 0 < cg.Height) (hx : -cg.Width ≤ x ∧ x < 2 * cg.Width)
    (hy : -cg.Height ≤ y ∧ y < 2 * cg.Height) :
    cg.CheckDimensions x y = .ok (x % cg.Width, y % cg.Height) := by
  have ex := wrap_eq_emod x cg.Width hx.1 hx.2
  have ey := wrap_eq_emod y cg.Height hy.1 hy.2
  have bx1 := Int.emod_nonneg x (ne_of_gt hW)
  have bx2 := Int.emod_lt_of_pos x hW
  have by1 := Int.emod_nonneg y (ne_of_gt hH)
  have by2 := Int.emod_lt_of_pos y hH
  unfold CLIGraphics.CheckDimensions
  simp only [ex, ey]
  rw [if_neg (by omega), if_neg (by omega)]

theorem CheckDimensions_x_err (cg : CLIGraphics) (x y : Int) (hW : 0 < cg.Width)
    (hx : ¬ (-cg.Width ≤ x ∧ x < 2 * cg.Width)) :
    cg.CheckDimensions x y =
      .error (.dimension (.range .x (-cg.Width) (2 * cg.Width) x)) (-1, -1) := by
  unfold CLIGraphics.CheckDimensions
  simp only
  rw [if_pos]
  split <;> [skip; split] <;> omega

theorem CheckDimensions_y_err (cg : CLIGraphics) (x y : Int) (hW : 0 < cg.Width)
    (hH : 0 < cg.Height) (hx : -cg.Width ≤ x ∧ x < 2 * cg.Width)
    (hy : ¬ (-cg.Height ≤ y ∧ y < 2 * cg.Height)) :
    cg.CheckDimensions x y =
      .error (.dimension (.range .y (-cg.Height) (2 * cg.Height) y)) (-1, -1) := by
  have ex := wrap_eq_emod x cg.Width hx.1 hx.2
  have bx1 := Int.emod_nonneg x (ne_of_gt hW)
  have bx2 := Int.emod_lt_of_pos x hW
  unfold CLIGraphics.CheckDimensions
  simp only [ex]
  rw [if_neg (by omega), if_pos]
  split <;> [skip; split] <;> omega

theorem at?_put (cg : CLIGraphics) (i j : Nat) (v : Bool) (i' j' : Nat) :
    (cg.put i j v).at? i' j' =
      if i' = i ∧ j' = j then (cg.at? i j).map (fun _ => v) else cg.at? i' j' := by
  unfold CLIGraphics.at? CLIGraphics.put
  simp only [List.getElem?_modify]
  by_cases hj : j = j'
  · subst hj
    cases h : cg.Grid[j]? with
    | none => simp
    | some row =>
      simp only [if_true, Option.map_eq_map, Option.map_some', and_true, List.getElem?_set']
      by_cases hi : i = i'
      · subst hi; simp; rfl
      · have hi' : ¬ i' = i := fun e => hi e.symm
        simp [hi, hi']
  · have hj' : ¬ j' = j := fun e => hj e.symm
    cases h : cg.Grid[j']? <;> simp [hj, hj']

theorem put_WF (cg : CLIGraphics) (i j : Nat) (v : Bool) (h : cg.WF) : (cg.put i j v).WF := by
  obtain ⟨hW, hH, hlen, hrows⟩ := h
  refine ⟨hW, hH, ?_, ?_⟩
  · simpa [CLIGraphics.put] using hlen
  · intro row hrow
    simp only [CLIGraphics.put] at hrow ⊢
    obtain ⟨k, hk⟩ := List.mem_iff_getElem?.mp hrow
    rw [List.getElem?_modify] at hk
    cases hg : cg.Grid[k]? with
    | none => simp [hg] at hk
    | some r =>
      have hr : r ∈ cg.Grid := List.mem_iff_getElem?.mpr ⟨k, hg⟩
      simp only [hg, Option.map_eq_map, Option.map_some', Option.some.injEq] at hk
      subst hk
      split <;> simp [hrows r hr]

theorem at?_isSome (cg : CLIGraphics) (h : cg.WF) (i j : Int) (hi : 0 ≤ i ∧ i < cg.Width)
    (hj : 0 ≤ j ∧ j < cg.Height) : ∃ v, cg.at? i.toNat j.toNat = some v := by
  obtain ⟨_, _, hlen, hrows⟩ := h
  unfold CLIGraphics.at?
  have hjl : j.toNat < cg.Grid.length := by omega
  rw [List.getElem?_eq_getElem hjl]
  have hr := hrows _ (List.getElem_mem hjl)
  have hil : i.toNat < (cg.Grid[j.toNat]).length := by omega
  exact ⟨_, List.getElem?_eq_getElem hil⟩

theorem Read_eq (cg : CLIGraphics) (i j : Int) (hi : 0 ≤ i ∧ i < cg.Width)
    (hj : 0 ≤ j ∧ j < cg.Height) (v : Bool) (h : cg.at? i.toNat j.toNat = some v) :
    cg.Read i j = .ok v := by
  unfold CLIGraphics.Read CLIGraphics.CheckDimensionsStrict
  rw [if_neg (by omega), if_neg (by omega)]
  simp [h]

theorem Read_out (cg : CLIGraphics) (i j : Int)
    (h : ¬ ((0 ≤ i ∧ i < cg.Width) ∧ (0 ≤ j ∧ j < cg.Height))) :
    ∃ e, cg.Read i j = .error e false := by
  unfold CLIGraphics.Read CLIGraphics.CheckDimensionsStrict
  by_cases hx : i < 0 ∨ i ≥ cg.Width
  · rw [if_pos hx]; exact ⟨_, rfl⟩
  · rw [if_neg hx, if_pos (by omega)]; exact ⟨_, rfl⟩

theorem Toggle_ok (cg : CLIGraphics) (h : cg.WF) (x y : Int)
    (hx : -cg.Width ≤ x ∧ x < 2 * cg.Width) (hy : -cg.Height ≤ y ∧ y < 2 * cg.Height) :
    ∃ v, cg.at? (x % cg.Width).toNat (y % cg.Height).toNat = some v ∧
      cg.Toggle x y = .ok (v, cg.put (x % cg.Width).toNat (y % cg.Height).toNat (!v)) := by
  have hW := h.1
  have hH := h.2.1
  have bx1 := Int.emod_nonneg x (ne_of_gt hW)
  have bx2 := Int.emod_lt_of_pos x hW
  have by1 := Int.emod_nonneg y (ne_of_gt hH)
  have by2 := Int.emod_lt_of_pos y hH
  obtain ⟨v, hv⟩ := at?_isSome cg h _ _ ⟨bx1, bx2⟩ ⟨by1, by2⟩
  refine ⟨v, hv, ?_⟩
  unfold CLIGraphics.Toggle
  rw [CheckDimensions_ok cg x y hW hH hx hy]
  simp [hv]

theorem Toggle_err (cg : CLIGraphics) (h : cg.WF) (x y : Int)
    (hr : ¬ ((-cg.Width ≤ x ∧ x < 2 * cg.Width) ∧ (-cg.Height ≤ y ∧ y < 2 * cg.Height))) :
    ∃ de, cg.Toggle x y = .error (.dimension de) (false, cg) := by
  unfold CLIGraphics.Toggle
  by_cases hx : -cg.Width ≤ x ∧ x < 2 * cg.Width
  · have hy : ¬ (-cg.Height ≤ y ∧ y < 2 * cg.Height) := fun hy => hr ⟨hx, hy⟩
    rw [CheckDimensions_y_err cg x y h.1 h.2.1 hx hy]
    exact ⟨_, rfl⟩
  · rw [CheckDimensions_x_err cg x y h.1 hx]
    exact ⟨_, rfl⟩

theorem Read_put (cg : CLIGraphics) (a b : Nat) (v : Bool) (i j : Int)
    (hne : ¬ (i.toNat = a ∧ j.toNat = b)) :
    (cg.put a b v).Read i j = cg.Read i j := by
  unfold CLIGraphics.Read
  have e : (cg.put a b v).CheckDimensionsStrict i j = cg.CheckDimensionsStrict i j := rfl
  rw [e, at?_put, if_neg hne]


theorem bit7_shift (b col : Nat) (h : col ≤ 7) :
    ((b <<< col) % 256) &&& 0x80 > 0 ↔ b.testBit (7 - col) = true := by
  rw [and_bit7]
  have e : ((b <<< col) % 256).testBit 7 = b.testBit (7 - col) := by
    have : (256 : Nat) = 2 ^ 8 := by norm_num
    rw [this, Nat.testBit_mod_two_pow, Nat.testBit_shiftLeft]
    simp [h]
  rw [← e, Nat.testBit_to_div_mod]
  have : (2:Nat) ^ 7 = 128 := by norm_num
  rw [this]
  rcases Nat.mod_two_eq_zero_or_one ((b <<< col) % 256 / 128) with h | h <;> simp [h]

theorem shift_step (b col : Nat) :
    (((b <<< col) % 256) <<< 1) % 256 = (b <<< (col + 1)) % 256 := by
  rw [Nat.shiftLeft_succ b col, Nat.shiftLeft_succ _ 0, Nat.shiftLeft_zero]
  generalize b <<< col = m
  omega

theorem drawCols_eq (vx vy : Int) (row : Nat) (b : Nat) :
    ∀ (k col : Nat) (g : CLIGraphics) (vF : Nat), col + k = 8 →
      CPU.drawCols vx vy row k col ((b <<< col) % 256) g vF =
        toggleList g vF ((List.range' col k).filterMap fun col =>
          if b.testBit (7 - col) then some (vx + (col : Int), vy + (row : Int)) else none) := by
  intro k
  induction k with
  | zero => intro col g vF _; simp [CPU.drawCols, toggleList]
  | succ k ih =>
    intro col g vF hk
    have hb := bit7_shift b col (by omega)
    rw [List.range'_succ, List.filterMap_cons]
    unfold CPU.drawCols
    by_cases hbit : b.testBit (7 - col) = true
    · rw [if_pos (hb.mpr hbit)]
      simp only [hbit, if_true]
      unfold toggleList
      cases hT : g.Toggle (vx + (col : Int)) (vy + (row : Int)) with
      | crash => rfl
      | error e r => rfl
      | ok r =>
        obtain ⟨erased, g1⟩ := r
        simp only
        rw [shift_step]
        have := ih (col + 1) g1 (if erased then 1 else vF) (by omega)
        simpa using this
    · rw [if_neg (fun hc => hbit (hb.mp hc))]
      simp only [hbit]
      rw [shift_step]
      have := ih (col + 1) g vF (by omega)
      simpa using this


/-- What a successful toggle does. -/
theorem Toggle_spec (cg : CLIGraphics) (h : cg.WF) (x y : Int) (v : Bool) (g1 : CLIGraphics)
    (hT : cg.Toggle x y = .ok (v, g1)) :
    cg.Read (x % cg.Width) (y % cg.Height) = .ok v ∧
    g1.Read (x % cg.Width) (y % cg.Height) = .ok (!v) ∧
    (∀ i j, ¬ (i = x % cg.Width ∧ j = y % cg.Height) → g1.Read i j = cg.Read i j) ∧
    g1.WF ∧ g1.Width = cg.Width ∧ g1.Height = cg.Height := by
  have hW := h.1
  have hH := h.2.1
  have bx1 := Int.emod_nonneg x (ne_of_gt hW)
  have bx2 := Int.emod_lt_of_pos x hW
  have by1 := Int.emod_nonneg y (ne_of_gt hH)
  have by2 := Int.emod_lt_of_pos y hH
  have hr : (-cg.Width ≤ x ∧ x < 2 * cg.Width) ∧ (-cg.Height ≤ y ∧ y < 2 * cg.Height) := by
    by_contra hn
    obtain ⟨de, hde⟩ := Toggle_err cg h x y hn
    rw [hde] at hT
    cases hT
  obtain ⟨w, hat, hv⟩ := Toggle_ok cg h x y hr.1 hr.2
  rw [hv] at hT
  cases hT
  refine ⟨Read_eq cg _ _ ⟨bx1, bx2⟩ ⟨by1, by2⟩ v hat, ?_, ?_, put_WF cg _ _ _ h, rfl, rfl⟩
  · apply Read_eq (cg.put _ _ _) _ _ ⟨bx1, bx2⟩ ⟨by1, by2⟩
    rw [at?_put, if_pos ⟨rfl, rfl⟩, hat]
    rfl
  · intro i j hij
    by_cases hin : (0 ≤ i ∧ i < cg.Width) ∧ (0 ≤ j ∧ j < cg.Height)
    · apply Read_put
      intro hc
      apply hij
      constructor <;> omega
    · unfold CLIGraphics.Read
      have e : (cg.put (x % cg.Width).toNat (y % cg.Height).toNat (!v)).CheckDimensionsStrict i j
          = cg.CheckDimensionsStrict i j := rfl
      rw [e]
      unfold CLIGraphics.CheckDimensionsStrict
      by_cases hx' : i < 0 ∨ i ≥ cg.Width
      · rw [if_pos hx']
      · rw [if_neg hx', if_pos (by omega)]

theorem toggleList_append (l1 l2 : List (Int × Int)) :
    ∀ (g : CLIGraphics) (vF : Nat), toggleList g vF (l1 ++ l2) =
      match toggleList g vF l1 with
      | .crash => .crash
      | .error e r => .error e r
      | .ok (g1, vF1) => toggleList g1 vF1 l2 := by
  induction l1 with
  | nil => intro g vF; simp [toggleList]
  | cons p ps ih =>
    intro g vF
    simp only [List.cons_append, toggleList]
    cases hT : g.Toggle p.1 p.2 with
    | crash => rfl
    | error e r => rfl
    | ok r => simp only; exact ih _ _

theorem toggleList_spec (cells : List (Int × Int)) :
    ∀ (g : CLIGraphics) (vF : Nat) (g' : CLIGraphics) (vF' : Nat), g.WF →
      toggleList g vF cells = .ok (g', vF') →
      g' = gridAfter g cells ∧ g'.WF ∧ g'.Width = g.Width ∧ g'.Height = g.Height ∧
      (vF' = vF ∨ vF' = 1) ∧
      (vF' = 1 ↔ vF = 1 ∨ ∃ k p, cells[k]? = some p ∧
        (gridAfter g (cells.take k)).Read (p.1 % g.Width) (p.2 % g.Height) = .ok true ∧
        (gridAfter g (cells.take (k + 1))).Read (p.1 % g.Width) (p.2 % g.Height) = .ok false) := by
  induction cells with
  | nil =>
    intro g vF g' vF' hg h
    simp only [toggleList, Outcome.ok.injEq, Prod.mk.injEq] at h
    obtain ⟨rfl, rfl⟩ := h
    simp [gridAfter, hg]
  | cons p ps ih =>
    intro g vF g' vF' hg h
    unfold toggleList at h
    cases hT : g.Toggle p.1 p.2 with
    | crash => rw [hT] at h; cases h
    | error e r => rw [hT] at h; cases h
    | ok r =>
      obtain ⟨erased, g1⟩ := r
      rw [hT] at h
      simp only at h
      obtain ⟨hr0, hr1, _, hg1, hw1, hh1⟩ := Toggle_spec g hg p.1 p.2 erased g1 hT
      obtain ⟨e1, e2, e3, e4, e5, e6⟩ := ih g1 _ g' vF' hg1 h
      have hcons : ∀ l, gridAfter g (p :: l) = gridAfter g1 l := by
        intro l; simp [gridAfter, hT]
      refine ⟨by rw [hcons]; exact e1, e2, by rw [e3, hw1], by rw [e4, hh1], ?_, ?_⟩
      · rcases e5 with e5 | e5
        · cases erased
          · left; simpa using e5
          · right; simpa using e5
        · right; exact e5
      · rw [e6]
        constructor
        · rintro (hv | ⟨k, q, hq, hb, ha⟩)
          · cases erased
            · left; simpa using hv
            · right
              refine ⟨0, p, by simp, ?_, ?_⟩
              · simpa [gridAfter] using hr0
              · rw [show List.take (0 + 1) (p :: ps) = p :: List.take 0 ps from rfl, hcons]
                simpa [gridAfter] using hr1
          · right
            refine ⟨k + 1, q, by simpa using hq, ?_, ?_⟩
            · rw [List.take_succ_cons, hcons, ← hw1, ← hh1]; exact hb
            · rw [List.take_succ_cons, hcons, ← hw1, ← hh1]; exact ha
        · rintro (hv | ⟨k, q, hq, hb, ha⟩)
          · left; simp [hv]
          · cases k with
            | zero =>
              simp only [List.getElem?_cons_zero, Option.some.injEq] at hq
              subst hq
              left
              simp only [List.take_zero, gridAfter, List.foldl_nil] at hb
              rw [hr0] at hb
              cases hb
              rfl
            | succ k =>
              right
              refine ⟨k, q, by simpa using hq, ?_, ?_⟩
              · rw [List.take_succ_cons, hcons, ← hw1, ← hh1] at hb; exact hb
              · rw [List.take_succ_cons, hcons, ← hw1, ← hh1] at ha; exact ha


theorem bootG_WF : boot.G.WF := by
  refine ⟨by decide, by decide, by simp [boot], ?_⟩
  intro row hrow
  simp only [boot] at hrow ⊢
  rw [List.eq_of_mem_replicate hrow]
  simp

/-- An opcode whose top nibble is D runs the draw loops. -/
theorem Execute_familyD (rnd : Nat) (c : CPU) (op : Nat) (h : op / 4096 % 16 = 13) :
    CPU.Execute rnd c op =
      match CPU.drawRows c.Memory c.I (c.V (op / 256 % 16)) (c.V (op / 16 % 16)) (op % 16) 0
          c.G 0 with
      | .crash => .crash
      | .error e (g, _) => .error e { c with PC := c.PC + STEP, G := g }
      | .ok (g, vF) => .ok { c with PC := c.PC + STEP, G := g, V := store c.V 0xf vF } := by
  simp only [CPU.Execute, dec_top, dec_x, dec_y, dec_n, h]
  rfl

theorem drawRows_eq (mem : Nat → Nat) (i : Nat) (vx vy : Int)
    (hm : ∀ a, a < 4096 → mem a < 256) :
    ∀ (k row : Nat) (g : CLIGraphics) (vF : Nat), k = 0 ∨ i + row + k ≤ 4096 →
      CPU.drawRows mem i vx vy k row g vF =
        toggleList g vF ((List.range' row k).flatMap fun r => rowCells (mem (i + r)) vx vy r) := by
  intro k
  induction k with
  | zero => intro row g vF _; simp [CPU.drawRows, toggleList]
  | succ k ih =>
    intro row g vF hb
    have hlt : i + row < 4096 := by omega
    have hc := drawCols_eq vx vy row (mem (i + row)) 8 0 g vF (by norm_num)
    rw [Nat.shiftLeft_zero, Nat.mod_eq_of_lt (hm _ hlt)] at hc
    rw [List.range'_succ, List.flatMap_cons, toggleList_append]
    unfold CPU.drawRows
    rw [if_pos hlt]
    have hc' : CPU.drawCols vx vy row 8 0 (mem (i + row)) g vF =
        toggleList g vF (rowCells (mem (i + row)) vx vy row) := by
      simpa [rowCells, List.range_eq_range'] using hc
    rw [hc']
    cases hT : toggleList g vF (rowCells (mem (i + row)) vx vy row) with
    | crash => rfl
    | error e r => rfl
    | ok r =>
      obtain ⟨g1, vF1⟩ := r
      simp only
      exact ih (row + 1) g1 vF1 (by omega)

theorem drawRows_ok_bound (mem : Nat → Nat) (i : Nat) (vx vy : Int) :
    ∀ (k row : Nat) (g : CLIGraphics) (vF : Nat) (r : CLIGraphics × Nat),
      CPU.drawRows mem i vx vy k row g vF = .ok r → k = 0 ∨ i + row + k ≤ 4096 := by
  intro k
  induction k with
  | zero => intro row g vF r _; left; rfl
  | succ k ih =>
    intro row g vF r h
    right
    unfold CPU.drawRows at h
    by_cases hlt : i + row < 4096
    · rw [if_pos hlt] at h
      cases hT : CPU.drawCols vx vy row 8 0 (mem (i + row)) g vF with
      | crash => rw [hT] at h; cases h
      | error e r => rw [hT] at h; cases h
      | ok r1 =>
        obtain ⟨g1, vF1⟩ := r1
        rw [hT] at h
        rcases ih (row + 1) g1 vF1 r h with h0 | h0 <;> omega
    · rw [if_neg hlt] at h
      cases h

theorem rowCells_zero (vx vy : Int) (row : Nat) : rowCells 0 vx vy row = [] := by
  simp [rowCells]

theorem spriteCells_zero (mem : Nat → Nat) (i : Nat) (vx vy : Int) (n : Nat)
    (h : ∀ r, r < n → mem (i + r) = 0) : spriteCells mem i vx vy n = [] := by
  unfold spriteCells
  rw [List.flatMap_eq_nil_iff]
  intro r hr
  rw [h r (List.mem_range.mp hr)]
  exact rowCells_zero vx vy r


/-- C5: on a grid of width W > 0 and height H > 0, `Toggle(x, y)` succeeds
iff -W <= x < 2W and -H <= y < 2H; on success it returns whether the cell at
column x mod W, row y mod H was set, flips that cell and leaves every other
cell (and the dimensions) as they were; otherwise it returns a
`DimensionError` and the grid is unchanged. On a 64 x 32 grid `Toggle(66, 0)`
flips cell (2, 0) and `Toggle(130, 0)` fails. -/
theorem toggle_single_wrap (cg : CLIGraphics) (h : cg.WF) (x y : Int) :
    ((∃ r, cg.Toggle x y = .ok r) ↔
      (-cg.Width ≤ x ∧ x < 2 * cg.Width) ∧ (-cg.Height ≤ y ∧ y < 2 * cg.Height)) ∧
    (∀ r, cg.Toggle x y = .ok r →
      cg.Read (x % cg.Width) (y % cg.Height) = .ok r.1 ∧
      r.2.Read (x % cg.Width) (y % cg.Height) = .ok (!r.1) ∧
      (∀ i j, ¬ (i = x % cg.Width ∧ j = y % cg.Height) → r.2.Read i j = cg.Read i j) ∧
      r.2.WF ∧ r.2.Width = cg.Width ∧ r.2.Height = cg.Height) ∧
    ((¬ ∃ r, cg.Toggle x y = .ok r) →
      ∃ de, cg.Toggle x y = .error (.dimension de) (false, cg)) ∧
    (cg.Width = 64 → cg.Height = 32 →
      (∃ v cg', cg.Toggle 66 0 = .ok (v, cg') ∧ cg.Read 2 0 = .ok v ∧
        cg'.Read 2 0 = .ok (!v)) ∧
      ∃ de, cg.Toggle 130 0 = .error (.dimension de) (false, cg)) := by
  have hiff : (∃ r, cg.Toggle x y = .ok r) ↔
      (-cg.Width ≤ x ∧ x < 2 * cg.Width) ∧ (-cg.Height ≤ y ∧ y < 2 * cg.Height) := by
    constructor
    · rintro ⟨r, hr⟩
      by_contra hn
      obtain ⟨de, hde⟩ := Toggle_err cg h x y hn
      rw [hde] at hr
      cases hr
    · rintro ⟨hx, hy⟩
      obtain ⟨v, _, hv⟩ := Toggle_ok cg h x y hx hy
      exact ⟨_, hv⟩
  refine ⟨hiff, ?_, ?_, ?_⟩
  · rintro ⟨v, g1⟩ hr
    exact Toggle_spec cg h x y v g1 hr
  · intro hn
    exact Toggle_err cg h x y (fun hr => hn (hiff.mpr hr))
  · intro hw hh
    constructor
    · obtain ⟨v, _, hv⟩ := Toggle_ok cg h 66 0 (by omega) (by omega)
      generalize cg.put _ _ _ = g1 at hv
      obtain ⟨r0, r1, _⟩ := Toggle_spec cg h 66 0 v g1 hv
      have e1 : (66 : Int) % cg.Width = 2 := by rw [hw]; decide
      have e2 : (0 : Int) % cg.Height = 0 := by rw [hh]; decide
      rw [e1, e2] at r0 r1
      exact ⟨v, g1, hv, r0, r1⟩
    · exact Toggle_err cg h 130 0 (by omega)

theorem toggle_single_wrap_witness :
    boot.G.WF ∧ ∃ de, boot.G.Toggle 130 0 = .error (.dimension de) (false, boot.G) :=
  ⟨bootG_WF, ((toggle_single_wrap boot.G bootG_WF 0 0).2.2.2 rfl rfl).2⟩

/-! ## The draw instruction (`Dxyn`) -/

/-- C4: on a well-formed state, when `Dxyn` returns no error the display is
the old one with the sprite's set bits toggled in turn, VF is 0 or 1, and
VF = 1 iff some toggle of the instruction found its cell set immediately
before it and left it unset. In particular the instruction succeeds with
VF = 0 when n = 0, and when all n sprite bytes at memory[I..I+n-1] are zero
(and lie inside memory). -/
theorem draw_collision (rnd : Nat) (s : CPU) (x y n : Nat) (hx : x < 16) (hy : y < 16)
    (hn : n < 16) (hs : s.WF) (hg : s.G.WF) :
    (∀ s', CPU.Execute rnd s (0xD000 + 0x100 * x + 0x10 * y + n) = .ok s' →
      s'.G = gridAfter s.G (spriteCells s.Memory s.I (s.V x) (s.V y) n) ∧
      (s'.V 0xF = 0 ∨ s'.V 0xF = 1) ∧
      (s'.V 0xF = 1 ↔ ∃ k p,
        (spriteCells s.Memory s.I (s.V x) (s.V y) n)[k]? = some p ∧
        (gridAfter s.G ((spriteCells s.Memory s.I (s.V x) (s.V y) n).take k)).Read
          (p.1 % s.G.Width) (p.2 % s.G.Height) = .ok true ∧
        (gridAfter s.G ((spriteCells s.Memory s.I (s.V x) (s.V y) n).take (k + 1))).Read
          (p.1 % s.G.Width) (p.2 % s.G.Height) = .ok false)) ∧
    (n = 0 → ∃ s', CPU.Execute rnd s (0xD000 + 0x100 * x + 0x10 * y + n) = .ok s' ∧
      s'.V 0xF = 0) ∧
    ((∀ r, r < n → s.Memory (s.I + r) = 0) → s.I + n ≤ 4096 →
      ∃ s', CPU.Execute rnd s (0xD000 + 0x100 * x + 0x10 * y + n) = .ok s' ∧ s'.V 0xF = 0) := by
  have h1 : (0xD000 + 0x100 * x + 0x10 * y + n) / 4096 % 16 = 13 := by omega
  have h2 : (0xD000 + 0x100 * x + 0x10 * y + n) / 256 % 16 = x := by omega
  have h3 : (0xD000 + 0x100 * x + 0x10 * y + n) / 16 % 16 = y := by omega
  have h4 : (0xD000 + 0x100 * x + 0x10 * y + n) % 16 = n := by omega
  rw [Execute_familyD _ _ _ h1, h2, h3, h4]
  have hzero : ∀ (hz : ∀ r, r < n → s.Memory (s.I + r) = 0) (hb : n = 0 ∨ s.I + 0 + n ≤ 4096),
      ∃ s', (match CPU.drawRows s.Memory s.I (s.V x) (s.V y) n 0 s.G 0 with
        | .crash => Outcome.crash
        | .error e (g, _) => .error e { s with PC := s.PC + STEP, G := g }
        | .ok (g, vF) => .ok { s with PC := s.PC + STEP, G := g, V := store s.V 0xf vF })
          = .ok s' ∧ s'.V 0xF = 0 := by
    intro hz hb
    have e := drawRows_eq s.Memory s.I (s.V x) (s.V y) hs.2.1 n 0 s.G 0 hb
    rw [← List.range_eq_range'] at e
    have e' : CPU.drawRows s.Memory s.I (s.V x) (s.V y) n 0 s.G 0
        = toggleList s.G 0 (spriteCells s.Memory s.I (s.V x) (s.V y) n) := e
    rw [e', spriteCells_zero _ _ _ _ _ hz]
    exact ⟨_, rfl, by simp [store]⟩
  refine ⟨?_, ?_, fun hz hb => hzero hz (Or.inr (by omega))⟩
  · intro s' h
    cases hD : CPU.drawRows s.Memory s.I (s.V x) (s.V y) n 0 s.G 0 with
    | crash => rw [hD] at h; cases h
    | error e r => rw [hD] at h; cases h
    | ok r =>
      obtain ⟨g, vF⟩ := r
      rw [hD] at h
      simp only [Outcome.ok.injEq] at h
      subst h
      have hb := drawRows_ok_bound _ _ _ _ _ _ _ _ _ hD
      have e := drawRows_eq s.Memory s.I (s.V x) (s.V y) hs.2.1 n 0 s.G 0 hb
      rw [← List.range_eq_range'] at e
      have e' : CPU.drawRows s.Memory s.I (s.V x) (s.V y) n 0 s.G 0
          = toggleList s.G 0 (spriteCells s.Memory s.I (s.V x) (s.V y) n) := e
      rw [e'] at hD
      obtain ⟨t1, _, _, _, t5, t6⟩ := toggleList_spec _ s.G 0 g vF hg hD
      refine ⟨t1, ?_, ?_⟩
      · simpa [store] using t5
      · simpa [store] using t6
  · intro hn0
    subst hn0
    exact hzero (fun r hr => absurd hr (Nat.not_lt_zero r)) (Or.inl rfl)

/-! ## Calls, returns, skips and decimal digits -/

theorem runOps_append (rnd : Nat) (l1 l2 : List Nat) :
    ∀ c, runOps rnd c (l1 ++ l2) =
      match runOps rnd c l1 with
      | .ok c1 => runOps rnd c1 l2
      | r => r := by
  induction l1 with
  | nil => intro c; rfl
  | cons op ops ih =>
    intro c
    simp only [List.cons_append, runOps]
    cases h : CPU.Execute rnd c op with
    | ok c1 => simp only; exact ih c1
    | error e r => rfl
    | crash => rfl

theorem Execute_call (rnd : Nat) (c : CPU) (nnn : Nat) (h : nnn < 4096) :
    CPU.Execute rnd c (0x2000 + nnn) =
      .ok { c with PC := (nnn : Int), Stack := c.Stack ++ [c.PC + 2] } := by
  have h1 : (0x2000 + nnn) / 4096 % 16 = 2 := by omega
  have h2 : (0x2000 + nnn) % 4096 = nnn := by omega
  simp [CPU.Execute, dec_top, dec_nnn, h1, h2, STEP]

theorem Execute_ret (rnd : Nat) (c : CPU) (st : List Int) (r : Int) (h : c.Stack = st ++ [r]) :
    CPU.Execute rnd c 0x00EE = .ok { c with PC := r, Stack := st } := by
  simp [CPU.Execute, dec_top, h]

theorem Execute_ret_empty (rnd : Nat) (c : CPU) (h : c.Stack = []) :
    CPU.Execute rnd c 0x00EE = .crash := by
  simp [CPU.Execute, dec_top, h]

theorem length_returnAddrs (ts : List Nat) : ∀ p, (returnAddrs p ts).length = ts.length := by
  induction ts with
  | nil => intro p; rfl
  | cons t ts ih => intro p; simp [returnAddrs, ih]

theorem runOps_calls (rnd : Nat) (ts : List Nat) :
    ∀ c : CPU, (∀ t ∈ ts, t < 4096) →
      ∃ c1, runOps rnd c (ts.map fun t => 0x2000 + t) = .ok c1 ∧
        c1.Stack = c.Stack ++ returnAddrs c.PC ts ∧
        (∀ t, ts.getLast? = some t → c1.PC = (t : Int)) := by
  induction ts with
  | nil => intro c _; exact ⟨c, rfl, by simp [returnAddrs], by simp⟩
  | cons t ts ih =>
    intro c ht
    have ht0 : t < 4096 := ht t (List.mem_cons_self _ _)
    obtain ⟨c1, e1, e2, e3⟩ := ih { c with PC := (t : Int), Stack := c.Stack ++ [c.PC + 2] }
      (fun u hu => ht u (List.mem_cons_of_mem _ hu))
    refine ⟨c1, ?_, ?_, ?_⟩
    · simp only [List.map_cons, runOps, Execute_call rnd c t ht0]
      exact e1
    · rw [e2]; simp [returnAddrs]
    · intro u hu
      cases ts with
      | nil =>
        simp only [List.getLast?_singleton, Option.some.injEq] at hu
        subst hu
        simp only [List.map_nil, runOps, Outcome.ok.injEq] at e1
        rw [← e1]
      | cons t2 ts2 =>
        apply e3
        simpa [List.getLast?_cons_cons] using hu

theorem runOps_rets (rnd : Nat) :
    ∀ (k : Nat) (c : CPU) (st l : List Int), c.Stack = st ++ l → 1 ≤ k → k ≤ l.length →
      ∃ c2, runOps rnd c (List.replicate k 0x00EE) = .ok c2 ∧
        l[l.length - k]? = some c2.PC ∧ c2.Stack = st ++ l.take (l.length - k) := by
  intro k
  induction k with
  | zero => intro c st l _ h1 _; omega
  | succ k ih =>
    intro c st l hst _ hk
    rcases List.eq_nil_or_concat l with hl | ⟨l', r, hl⟩
    · subst hl; simp at hk
    · rw [List.concat_eq_append] at hl
      subst hl
      have hlen : (l' ++ [r]).length = l'.length + 1 := by simp
      have hE := Execute_ret rnd c (st ++ l') r (by rw [hst, List.append_assoc])
      simp only [List.replicate_succ, runOps, hE]
      rcases Nat.eq_zero_or_pos k with hk0 | hkpos
      · subst hk0
        refine ⟨_, rfl, ?_, ?_⟩
        · simp [hlen]
        · simp [hlen]
      · obtain ⟨c2, e1, e2, e3⟩ := ih { c with PC := r, Stack := st ++ l' } st l' rfl hkpos
          (by rw [hlen] at hk; omega)
        rw [hlen] at hk
        have hidx : l'.length + 1 - (k + 1) = l'.length - k := by omega
        refine ⟨c2, e1, ?_, ?_⟩
        · rw [hlen, hidx, List.getElem?_append_left (by omega)]
          exact e2
        · rw [hlen, hidx, e3, List.take_append_of_le_length (by omega)]


/-- C6: from a state with an empty call stack, N consecutive calls `2nnn`
(the first executed at the current program counter, each later one at the
target of the call before it) return no error and leave a stack of length
exactly N holding the N return addresses (each call's own program counter
plus 2) in push order, with the program counter at the last call target;
k further returns `00EE` (1 <= k <= N) return no error, leave the program
counter at the k-th return address counted from the top and the first N - k
return addresses on the stack, so N returns empty it. From any state, a call
followed by a return gives the program counter after the call instruction
and the original stack. -/
theorem call_ret_nesting (rnd : Nat) (s : CPU) (targets : List Nat)
    (ht : ∀ t ∈ targets, t < 4096) (hs : s.Stack = []) :
    (∃ s1, runOps rnd s (targets.map fun t => 0x2000 + t) = .ok s1 ∧
      s1.Stack = returnAddrs s.PC targets ∧ s1.Stack.length = targets.length ∧
      (∀ t, targets.getLast? = some t → s1.PC = (t : Int))) ∧
    (∀ k, 1 ≤ k → k ≤ targets.length →
      ∃ s2, runOps rnd s ((targets.map fun t => 0x2000 + t) ++ List.replicate k 0x00EE)
          = .ok s2 ∧
        (returnAddrs s.PC targets)[targets.length - k]? = some s2.PC ∧
        s2.Stack = (returnAddrs s.PC targets).take (targets.length - k)) ∧
    (∀ (c : CPU) (nnn : Nat), nnn < 4096 →
      ∃ c1 c2, CPU.Execute rnd c (0x2000 + nnn) = .ok c1 ∧ CPU.Execute rnd c1 0x00EE = .ok c2 ∧
        c2.PC = c.PC + 2 ∧ c2.Stack = c.Stack) := by
  obtain ⟨s1, e1, e2, e3⟩ := runOps_calls rnd targets s ht
  rw [hs, List.nil_append] at e2
  refine ⟨⟨s1, e1, e2, by rw [e2, length_returnAddrs], e3⟩, ?_, ?_⟩
  · intro k hk1 hk2
    have hl := length_returnAddrs targets s.PC
    obtain ⟨s2, f1, f2, f3⟩ := runOps_rets rnd k s1 [] (returnAddrs s.PC targets)
      (by rw [e2, List.nil_append]) hk1 (by rw [hl]; exact hk2)
    rw [hl] at f2 f3
    refine ⟨s2, ?_, f2, by simpa using f3⟩
    rw [runOps_append, e1]
    exact f1
  · intro c nnn hn
    exact ⟨_, _, Execute_call rnd c nnn hn, Execute_ret rnd _ c.Stack (c.PC + 2) rfl, rfl, rfl⟩

/-- C7: `3xkk`, `4xkk`, `5xy0` and `9xy0` return no error and change only
the program counter: to p + 4 when the condition holds (Vx = kk, Vx != kk,
Vx = Vy, Vx != Vy respectively) and to p + 2 otherwise. -/
theorem skip_instructions (rnd : Nat) (s : CPU) (x y kk : Nat) (hx : x < 16) (hy : y < 16)
    (hkk : kk < 256) :
    CPU.Execute rnd s (0x3000 + 0x100 * x + kk) =
      .ok { s with PC := if s.V x = kk then s.PC + 4 else s.PC + 2 } ∧
    CPU.Execute rnd s (0x4000 + 0x100 * x + kk) =
      .ok { s with PC := if s.V x ≠ kk then s.PC + 4 else s.PC + 2 } ∧
    CPU.Execute rnd s (0x5000 + 0x100 * x + 0x10 * y) =
      .ok { s with PC := if s.V x = s.V y then s.PC + 4 else s.PC + 2 } ∧
    CPU.Execute rnd s (0x9000 + 0x100 * x + 0x10 * y) =
      .ok { s with PC := if s.V x ≠ s.V y then s.PC + 4 else s.PC + 2 } := by
  have e4 : s.PC + 2 + 2 = s.PC + 4 := by ring
  refine ⟨?_, ?_, ?_, ?_⟩
  · have h1 : (0x3000 + 0x100 * x + kk) / 4096 % 16 = 3 := by omega
    have h2 : (0x3000 + 0x100 * x + kk) / 256 % 16 = x := by omega
    have h3 : (0x3000 + 0x100 * x + kk) % 256 = kk := by omega
    simp only [CPU.Execute, dec_top, dec_x, dec_kk, h1, h2, h3, STEP, Nat.mod_eq_of_lt hkk]
    by_cases h : s.V x = kk <;> simp [h, e4]
  · have h1 : (0x4000 + 0x100 * x + kk) / 4096 % 16 = 4 := by omega
    have h2 : (0x4000 + 0x100 * x + kk) / 256 % 16 = x := by omega
    have h3 : (0x4000 + 0x100 * x + kk) % 256 = kk := by omega
    simp only [CPU.Execute, dec_top, dec_x, dec_kk, h1, h2, h3, STEP, Nat.mod_eq_of_lt hkk]
    by_cases h : s.V x = kk <;> simp [h, e4]
  · have h1 : (0x5000 + 0x100 * x + 0x10 * y) / 4096 % 16 = 5 := by omega
    have h2 : (0x5000 + 0x100 * x + 0x10 * y) / 256 % 16 = x := by omega
    have h3 : (0x5000 + 0x100 * x + 0x10 * y) / 16 % 16 = y := by omega
    simp only [CPU.Execute, dec_top, dec_x, dec_y, h1, h2, h3, STEP]
    by_cases h : s.V x = s.V y <;> simp [h, e4]
  · have h1 : (0x9000 + 0x100 * x + 0x10 * y) / 4096 % 16 = 9 := by omega
    have h2 : (0x9000 + 0x100 * x + 0x10 * y) / 256 % 16 = x := by omega
    have h3 : (0x9000 + 0x100 * x + 0x10 * y) / 16 % 16 = y := by omega
    simp only [CPU.Execute, dec_top, dec_x, dec_y, h1, h2, h3, STEP]
    by_cases h : s.V x = s.V y <;> simp [h, e4]

/-- An opcode whose top nibble is F runs the inner switch on the advanced state. -/
theorem Execute_familyF (rnd : Nat) (c : CPU) (op : Nat) (h : op / 4096 % 16 = 15) :
    CPU.Execute rnd c op = CPU.execMisc { c with PC := c.PC + STEP } op (op / 256 % 16) := by
  simp [CPU.Execute, dec_top, dec_x, h]

/-- C8: on a state whose registers are bytes and with I + 2 <= 4095, `Fx33`
returns no error and stores Vx / 100 at memory[I], (Vx / 10) mod 10 at
memory[I+1] and Vx mod 10 at memory[I+2]; the three digits are at most 9 and
recompose Vx; no other memory cell and no register changes. For Vx = 157
the digits are 1, 5, 7. -/
theorem bcd_digits (rnd : Nat) (s : CPU) (x : Nat) (hx : x < 16) (hs : s.WF)
    (hI : s.I + 2 ≤ 4095) :
    ∃ s', CPU.Execute rnd s (0xF033 + 0x100 * x) = .ok s' ∧
      s'.Memory s.I = s.V x / 100 ∧
      s'.Memory (s.I + 1) = (s.V x / 10) % 10 ∧
      s'.Memory (s.I + 2) = s.V x % 10 ∧
      100 * s'.Memory s.I + 10 * s'.Memory (s.I + 1) + s'.Memory (s.I + 2) = s.V x ∧
      s'.Memory s.I ≤ 9 ∧ s'.Memory (s.I + 1) ≤ 9 ∧ s'.Memory (s.I + 2) ≤ 9 ∧
      (∀ a, a ≠ s.I → a ≠ s.I + 1 → a ≠ s.I + 2 → s'.Memory a = s.Memory a) ∧
      s'.V = s.V ∧
      (s.V x = 157 → s'.Memory s.I = 1 ∧ s'.Memory (s.I + 1) = 5 ∧ s'.Memory (s.I + 2) = 7) := by
  have h1 : (0xF033 + 0x100 * x) / 4096 % 16 = 15 := by omega
  have h2 : (0xF033 + 0x100 * x) / 256 % 16 = x := by omega
  have h3 : (0xF033 + 0x100 * x) % 256 = 0x33 := by omega
  have hv := hs.1 x hx
  have m0 : s.I < 4096 := by omega
  have m1 : (s.I + 1) % 65536 = s.I + 1 := by omega
  have m2 : (s.I + 2) % 65536 = s.I + 2 := by omega
  have ha : sub8 (s.V x) (s.V x % 10) = s.V x - s.V x % 10 := by
    unfold sub8; omega
  have d1 : sub8 (s.V x) (s.V x % 10) / 10 % 10 = s.V x / 10 % 10 := by
    rw [ha]; omega
  have hb : sub8 (s.V x - s.V x % 10) (s.V x / 10 % 10 * 10 % 256) =
      s.V x - s.V x % 10 - s.V x / 10 % 10 * 10 := by
    unfold sub8; omega
  have d0 : (sub8 (sub8 (s.V x) (s.V x % 10)) (s.V x / 10 % 10 * 10 % 256) / 100) % 10 =
      s.V x / 100 := by
    rw [ha, hb]; omega
  rw [Execute_familyF _ _ _ h1, h2]
  simp only [CPU.execMisc, dec_lo8, h3]
  norm_num
  rw [m1, m2, if_pos (by omega), if_pos (by omega), if_pos m0]
  refine ⟨_, rfl, ?_⟩
  simp only [store, d1, d0]
  have a0 : s.I ≠ s.I + 1 := by omega
  have a1 : s.I ≠ s.I + 2 := by omega
  have a2 : s.I + 1 ≠ s.I + 2 := by omega
  have a3 : s.I + 1 ≠ s.I := by omega
  have a4 : s.I + 2 ≠ s.I := by omega
  have a5 : s.I + 2 ≠ s.I + 1 := by omega
  simp only [if_true, if_neg a3, if_neg a4, if_neg a5, true_and]
  refine ⟨by omega, by omega, by omega, by omega, ?_, ?_⟩
  · intro a b0 b1 b2
    simp [b0, b1, b2]
  · intro h157
    rw [h157]
    decide


theorem call_ret_nesting_witness :
    ∃ s2, runOps 0 boot (([0x300, 0x400].map fun t => 0x2000 + t) ++ List.replicate 2 0x00EE)
        = .ok s2 ∧
      (returnAddrs boot.PC [0x300, 0x400])[[0x300, 0x400].length - 2]? = some s2.PC ∧
      s2.Stack = (returnAddrs boot.PC [0x300, 0x400]).take ([0x300, 0x400].length - 2) :=
  (call_ret_nesting 0 boot [0x300, 0x400] (by decide) rfl).2.1 2 (by decide) (by decide)

theorem skip_instructions_witness :
    CPU.Execute 0 boot (0x3000 + 0x100 * 1 + 0x33) =
      .ok { boot with PC := if boot.V 1 = 0x33 then boot.PC + 4 else boot.PC + 2 } :=
  (skip_instructions 0 boot 1 2 0x33 (by decide) (by decide) (by decide)).1

theorem bcd_digits_witness :
    ∃ s', CPU.Execute 0 (bootWith fun _ => 157) (0xF033 + 0x100 * 3) = .ok s' ∧
      s'.Memory 0 = 1 ∧ s'.Memory 1 = 5 ∧ s'.Memory 2 = 7 := by
  obtain ⟨s', h, _, _, _, _, _, _, _, _, _, h157⟩ :=
    bcd_digits 0 (bootWith fun _ => 157) 3 (by decide)
      (bootWith_WF _ (fun _ _ => by decide)) (by decide)
  exact ⟨s', h, h157 rfl⟩

/-! ## Font address (`Fx29`) and return on an empty stack -/

/-- C9, the code at Vx = 52: `Fx29` multiplies in 8 bits, so `I` becomes
(52 * 5) mod 256 = 4 and not the product 260. -/
theorem font_address_truncated :
    ∃ s', CPU.Execute 0 (bootWith fun _ => 52) 0xF029 = .ok s' ∧ s'.I = 4 ∧
      (bootWith fun _ => 52).V 0 * 5 = 260 := by
  refine ⟨_, Execute_familyF _ _ _ (by decide), ?_, ?_⟩
  · simp [CPU.execMisc, dec_lo8, bootWith]
  · simp [bootWith]

/-- C10, the code on an empty call stack: `00EE` indexes the stack at -1,
which is a run-time crash, not an error value returned to the caller. -/
theorem ret_empty_stack_crashes : CPU.Execute 0 boot 0x00EE = .crash :=
  Execute_ret_empty 0 boot rfl

/-! ## Unknown opcodes -/

theorem CheckDimensions_error_kind (g : CLIGraphics) (x y : Int) (e : Error) (r : Int × Int)
    (h : g.CheckDimensions x y = .error e r) : ∃ de, e = .dimension de := by
  unfold CLIGraphics.CheckDimensions at h
  simp only at h
  split_ifs at h <;> (cases h; exact ⟨_, rfl⟩)

theorem Toggle_error_kind (g : CLIGraphics) (x y : Int) (e : Error) (r : Bool × CLIGraphics)
    (h : g.Toggle x y = .error e r) : ∃ de, e = .dimension de := by
  unfold CLIGraphics.Toggle at h
  cases hc : g.CheckDimensions x y with
  | crash => rw [hc] at h; cases h
  | error e1 r1 =>
    rw [hc] at h
    cases h
    exact CheckDimensions_error_kind g x y _ _ hc
  | ok r1 =>
    rw [hc] at h
    obtain ⟨a, b⟩ := r1
    simp only at h
    cases ha : g.at? a.toNat b.toNat with
    | none => rw [ha] at h; cases h
    | some v => rw [ha] at h; cases h

theorem drawCols_error_kind (vx vy row : Int) :
    ∀ (k : Nat) (col : Int) (sprite : Nat) (g : CLIGraphics) (vF : Nat) (e : Error)
      (r : CLIGraphics × Nat),
      CPU.drawCols vx vy row k col sprite g vF = .error e r → ∃ de, e = .dimension de := by
  intro k
  induction k with
  | zero => intro col sprite g vF e r h; simp [CPU.drawCols] at h
  | succ k ih =>
    intro col sprite g vF e r h
    unfold CPU.drawCols at h
    split at h
    · cases hT : g.Toggle (vx + col) (vy + row) with
      | crash => rw [hT] at h; cases h
      | error e1 r1 =>
        rw [hT] at h
        cases h
        exact Toggle_error_kind _ _ _ _ _ hT
      | ok r1 =>
        rw [hT] at h
        exact ih _ _ _ _ _ _ h
    · exact ih _ _ _ _ _ _ h

theorem drawRows_error_kind (mem : Nat → Nat) (i : Nat) (vx vy : Int) :
    ∀ (k row : Nat) (g : CLIGraphics) (vF : Nat) (e : Error) (r : CLIGraphics × Nat),
      CPU.drawRows mem i vx vy k row g vF = .error e r → ∃ de, e = .dimension de := by
  intro k
  induction k with
  | zero => intro row g vF e r h; simp [CPU.drawRows] at h
  | succ k ih =>
    intro row g vF e r h
    unfold CPU.drawRows at h
    split at h
    · cases hC : CPU.drawCols vx vy row 8 0 (mem (i + row)) g vF with
      | crash => rw [hC] at h; cases h
      | error e1 r1 =>
        rw [hC] at h
        cases h
        exact drawCols_error_kind _ _ _ _ _ _ _ _ _ _ hC
      | ok r1 =>
        rw [hC] at h
        exact ih _ _ _ _ _ h
    · cases h

theorem ite_ne {α : Type} {p : Prop} [Decidable p] {a b x : α}
    (ha : p → a ≠ x) (hb : ¬ p → b ≠ x) : (if p then a else b) ≠ x := by
  split
  · exact ha ‹_›
  · exact hb ‹_›

theorem execMisc_not_error (c : CPU) (op x : Nat) (e : Error) (c' : CPU) :
    CPU.execMisc c op x ≠ .error e c' := by
  unfold CPU.execMisc
  simp only
  repeat' (apply ite_ne <;> intro _)
  all_goals first
    | (intro h; cases h)
    | (split <;> intro h <;> cases h)

theorem Execute_never_unknown (rnd : Nat) (s : CPU) (op : Nat) (v : Nat) (c : CPU) :
    CPU.Execute rnd s op ≠ .error (.unknownOpcode v) c := by
  unfold CPU.Execute
  simp only [dec_top]
  repeat' (apply ite_ne <;> intro _)
  all_goals first
    | (intro h; cases h; done)
    | exact execMisc_not_error _ _ _ _ _
    | (split <;> intro h <;> cases h)
    | (exfalso; omega)
  rename_i heq
  obtain ⟨de, hde⟩ := drawRows_error_kind _ _ _ _ _ _ _ _ _ _ heq
  cases hde


/-- C11, as the code has it: `Execute` returns an unknown-opcode error for
no opcode at all, because every value of the top nibble has a case. An
opcode that matches no pattern of the table inside its family returns no
error: `0x0123`, `0x8128`, `0xE1FF` and `0xF1FF` change nothing but the
program counter (which advances by 2), and `0x5121` is executed as the skip
`5xy0` on V1 and V2. -/
theorem unknown_opcode_never (rnd : Nat) (s : CPU) :
    (∀ op v c, CPU.Execute rnd s op ≠ .error (.unknownOpcode v) c) ∧
    CPU.Execute rnd s 0x0123 = .ok { s with PC := s.PC + 2 } ∧
    CPU.Execute rnd s 0x8128 = .ok { s with PC := s.PC + 2 } ∧
    CPU.Execute rnd s 0xE1FF = .ok { s with PC := s.PC + 2 } ∧
    CPU.Execute rnd s 0xF1FF = .ok { s with PC := s.PC + 2 } ∧
    CPU.Execute rnd s 0x5121 =
      .ok { s with PC := if s.V 1 = s.V 2 then s.PC + 4 else s.PC + 2 } := by
  refine ⟨fun op v c => Execute_never_unknown rnd s op v c, ?_, ?_, ?_, ?_, ?_⟩
  · simp [CPU.Execute, dec_top, STEP]
  · rw [Execute_family8 _ _ _ (by decide)]
    simp [CPU.execALU, dec_n, STEP]
  · simp [CPU.Execute, dec_top, STEP]
  · rw [Execute_familyF _ _ _ (by decide)]
    simp [CPU.execMisc, dec_lo8, STEP]
  · have e4 : s.PC + 2 + 2 = s.PC + 4 := by ring
    simp only [CPU.Execute, dec_top, dec_x, dec_y, STEP]
    norm_num
    by_cases h : s.V 1 = s.V 2 <;> simp [h, e4]

/-- C11 read literally fails: `0x0123` matches no pattern of the opcode
table, yet `Execute` returns no error on it. -/
theorem unknown_opcode_counterexample :
    CPU.Execute 0 boot 0x0123 = .ok { boot with PC := boot.PC + 2 } := by
  simp [CPU.Execute, dec_top, STEP]

/-! ## Frame of `Execute` and the program counter -/

theorem ite_ok {Q : CPU → Prop} {p : Prop} [Decidable p] {a b : Outcome CPU}
    (ha : p → ∀ s', a = .ok s' → Q s') (hb : ¬ p → ∀ s', b = .ok s' → Q s') :
    ∀ s', (if p then a else b) = .ok s' → Q s' := by
  split
  · exact ha ‹_›
  · exact hb ‹_›

theorem ite_regs (c : CPU) {p : Prop} [Decidable p] {a b : CPU}
    (ha : ∃ v, a = { c with V := v }) (hb : ∃ v, b = { c with V := v }) :
    ∃ v, (if p then a else b) = { c with V := v } := by
  split
  · exact ha
  · exact hb

theorem execALU_frame (c : CPU) (op x y : Nat) :
    ∃ v, CPU.execALU c op x y = { c with V := v } := by
  unfold CPU.execALU
  simp only
  repeat' apply ite_regs
  all_goals exact ⟨_, rfl⟩

theorem execMisc_ok_frame (c : CPU) (op x : Nat) :
    ∀ s', CPU.execMisc c op x = .ok s' →
      s'.PC = c.PC ∧ s'.Stack = c.Stack ∧ s'.Paused = c.Paused ∧ s'.Speed = c.Speed ∧
      s'.G = c.G ∧
      (s'.DelayTimer = c.DelayTimer ∨ s'.DelayTimer = (c.V x : Int)) ∧
      (s'.SoundTimer = c.SoundTimer ∨ s'.SoundTimer = (c.V x : Int)) := by
  unfold CPU.execMisc
  simp only
  repeat' (apply ite_ok <;> intro _)
  all_goals first
    | (intro s' h; cases h; try simp)
    | (intro s' h; split at h <;> cases h; simp)


theorem Execute_ok_frame (rnd : Nat) (s : CPU) (op : Nat) :
    ∀ s', CPU.Execute rnd s op = .ok s' →
      s'.Paused = s.Paused ∧ s'.Speed = s.Speed ∧
      (s'.DelayTimer = s.DelayTimer ∨ ∃ i, i < 16 ∧ s'.DelayTimer = (s.V i : Int)) ∧
      (s'.SoundTimer = s.SoundTimer ∨ ∃ i, i < 16 ∧ s'.SoundTimer = (s.V i : Int)) ∧
      ((s'.Stack = s.Stack ∧
          (s'.PC = s.PC + 2 ∨ s'.PC = s.PC + 4 ∨
            (op / 4096 % 16 = 1 ∧ s'.PC = ((op % 4096 : Nat) : Int)) ∨
            (op / 4096 % 16 = 11 ∧ s'.PC = ((op % 4096 : Nat) : Int) + (s.V 0 : Int)))) ∨
        (op / 4096 % 16 = 2 ∧ s'.Stack = s.Stack ++ [s.PC + 2] ∧
          s'.PC = ((op % 4096 : Nat) : Int)) ∨
        (∃ r, s.Stack = s'.Stack ++ [r] ∧ s'.PC = r)) := by
  have e4 : s.PC + 2 + 2 = s.PC + 4 := by ring
  have hx : op / 256 % 16 < 16 := Nat.mod_lt _ (by norm_num)
  unfold CPU.Execute
  simp only [dec_top, dec_nnn, dec_x, dec_y, STEP]
  repeat' (apply ite_ok <;> intro _)
  all_goals first
    | (intro s' h; cases h; done)
    | (intro s' h; cases h; simp [e4]; done)
    | (intro s' h; cases h; simp [e4]; omega)
    | (intro s' h; cases h
       exact ⟨rfl, rfl, Or.inr ⟨_, hx, rfl⟩, Or.inl rfl, Or.inl ⟨rfl, Or.inl rfl⟩⟩)
    | (intro s' h; cases h
       exact ⟨rfl, rfl, Or.inl rfl, Or.inr ⟨_, hx, rfl⟩, Or.inl ⟨rfl, Or.inl rfl⟩⟩)
    | (intro s' h
       obtain ⟨v, hv⟩ := execALU_frame { s with PC := s.PC + 2 } op (op / 256 % 16)
         (op / 16 % 16)
       rw [hv] at h
       cases h
       simp)
    | (intro s' h; split at h <;> cases h; simp; done)
    | skip
  intro s' h
  split at h
  · cases h
  · next ret hret =>
    cases h
    refine ⟨rfl, rfl, Or.inl rfl, Or.inl rfl, Or.inr (Or.inr ⟨ret, ?_, rfl⟩)⟩
    exact (List.dropLast_append_getLast? ret hret).symm


/-- C12, as the code has it: in every state reachable from an initial state
(PC = 0x200, empty stack) by successful `Execute` calls on arbitrary opcodes
the program counter and every stack entry are non-negative; they are even
when every executed jump `1nnn` or call `2nnn` has an even `nnn` and every
executed `Bnnn` has `nnn + V0` even. -/
theorem pc_invariant (s0 : CPU) (hpc : s0.PC = 0x200) (hst : s0.Stack = []) :
    (∀ s, Reach (fun _ _ => True) s0 s → 0 ≤ s.PC ∧ ∀ r ∈ s.Stack, 0 ≤ r) ∧
    (∀ s, Reach evenTargets s0 s → s.PC % 2 = 0 ∧ ∀ r ∈ s.Stack, r % 2 = 0) := by
  constructor
  · intro s hr
    induction hr with
    | init => rw [hpc, hst]; exact ⟨by norm_num, by simp⟩
    | step rnd op _ _ hE ih =>
      obtain ⟨ihpc, ihst⟩ := ih
      obtain ⟨_, _, _, _, hf⟩ := Execute_ok_frame rnd _ op _ hE
      rcases hf with ⟨hs, hp⟩ | ⟨_, hs, hp⟩ | ⟨r, hs, hp⟩
      · rw [hs]
        refine ⟨?_, ihst⟩
        rcases hp with hp | hp | ⟨_, hp⟩ | ⟨_, hp⟩ <;> rw [hp] <;> omega
      · rw [hs, hp]
        refine ⟨by omega, ?_⟩
        intro r hr
        rcases List.mem_append.mp hr with h | h
        · exact ihst r h
        · rw [List.mem_singleton.mp h]; omega
      · rw [hs] at ihst
        rw [hp]
        exact ⟨ihst r (by simp), fun q hq => ihst q (List.mem_append_left _ hq)⟩
  · intro s hr
    induction hr with
    | init => rw [hpc, hst]; exact ⟨by norm_num, by simp⟩
    | step rnd op _ hal hE ih =>
      obtain ⟨ihpc, ihst⟩ := ih
      obtain ⟨hjc, hb⟩ := hal
      obtain ⟨_, _, _, _, hf⟩ := Execute_ok_frame rnd _ op _ hE
      rcases hf with ⟨hs, hp⟩ | ⟨ht, hs, hp⟩ | ⟨r, hs, hp⟩
      · rw [hs]
        refine ⟨?_, ihst⟩
        rcases hp with hp | hp | ⟨ht, hp⟩ | ⟨ht, hp⟩
        · rw [hp]; omega
        · rw [hp]; omega
        · have := hjc (Or.inl ht)
          rw [hp]; omega
        · have := hb ht
          rw [hp]; omega
      · have := hjc (Or.inr ht)
        rw [hs, hp]
        refine ⟨by omega, ?_⟩
        intro r hr
        rcases List.mem_append.mp hr with h | h
        · exact ihst r h
        · rw [List.mem_singleton.mp h]; omega
      · rw [hs] at ihst
        rw [hp]
        exact ⟨ihst r (by simp), fun q hq => ihst q (List.mem_append_left _ hq)⟩

theorem pc_invariant_witness : (0 : Int) ≤ ({ boot with PC := 0x300 } : CPU).PC :=
  ((pc_invariant boot rfl rfl).1 _
    (Reach.step 0 0x1300 Reach.init trivial (by simp [CPU.Execute, dec_top, dec_nnn, boot]))).1

/-- C12 read literally fails twice over: from the initial machine the jump
`1201` reaches the odd program counter 0x201, and the jump `1FFE` followed
by `6000` reaches 0x1000, outside the 12-bit range. -/
theorem pc_invariant_counterexample :
    (∃ s, Reach (fun _ _ => True) boot s ∧ s.PC = 0x201) ∧
    (∃ s, Reach (fun _ _ => True) boot s ∧ s.PC = 0x1000) := by
  constructor
  · exact ⟨{ boot with PC := 0x201 },
      Reach.step 0 0x1201 Reach.init trivial (by simp [CPU.Execute, dec_top, dec_nnn, boot]),
      rfl⟩
  · refine ⟨{ boot with PC := 0x1000, V := store boot.V 0 0 }, ?_, rfl⟩
    refine Reach.step 0 0x6000 (Reach.step 0 0x1FFE Reach.init trivial
      (by simp [CPU.Execute, dec_top, dec_nnn, boot] : _ = .ok { boot with PC := 0xFFE }))
      trivial ?_
    simp [CPU.Execute, dec_top, dec_x, dec_kk, boot, STEP]

/-! ## Timers -/

theorem ite_err {Q : Error → CPU → Prop} {p : Prop} [Decidable p] {a b : Outcome CPU}
    (ha : p → ∀ e s', a = .error e s' → Q e s') (hb : ¬ p → ∀ e s', b = .error e s' → Q e s') :
    ∀ e s', (if p then a else b) = .error e s' → Q e s' := by
  split
  · exact ha ‹_›
  · exact hb ‹_›

/-- An error return of `Execute` leaves everything but the program counter
(advanced by 2) and the display as it was. -/
theorem Execute_error_frame (rnd : Nat) (s : CPU) (op : Nat) :
    ∀ e s', CPU.Execute rnd s op = .error e s' →
      ∃ g, s' = { s with PC := s.PC + 2, G := g } := by
  unfold CPU.Execute
  simp only [STEP]
  repeat' (apply ite_err <;> intro _)
  all_goals first
    | (intro e s' h; cases h; done)
    | (intro e s' h; cases h; exact ⟨_, rfl⟩)
    | (intro e s' h; split at h <;> cases h; done)
    | (intro e s' h; split at h <;> cases h; exact ⟨_, rfl⟩)

/-- C13: on a state whose registers are bytes and whose delay and sound
timers are both in 0..255, `updateTimers` changes nothing but the two
timers, each becoming t - 1 when t > 0 and staying 0 when t = 0,
independently of the other; both stay in 0..255 after `updateTimers`, and in
whatever state `Execute` returns (normally or with an error) on any opcode. -/
theorem timers_in_range (s : CPU) (hs : s.WF)
    (hd : 0 ≤ s.DelayTimer ∧ s.DelayTimer ≤ 255) (hso : 0 ≤ s.SoundTimer ∧ s.SoundTimer ≤ 255) :
    s.updateTimers =
      { s with
        DelayTimer := if s.DelayTimer > 0 then s.DelayTimer - 1 else 0
        SoundTimer := if s.SoundTimer > 0 then s.SoundTimer - 1 else 0 } ∧
    (0 ≤ s.updateTimers.DelayTimer ∧ s.updateTimers.DelayTimer ≤ 255 ∧
      0 ≤ s.updateTimers.SoundTimer ∧ s.updateTimers.SoundTimer ≤ 255) ∧
    (∀ rnd op s', (CPU.Execute rnd s op = .ok s' ∨ ∃ e, CPU.Execute rnd s op = .error e s') →
      0 ≤ s'.DelayTimer ∧ s'.DelayTimer ≤ 255 ∧ 0 ≤ s'.SoundTimer ∧ s'.SoundTimer ≤ 255) := by
  have hupd : s.updateTimers =
      { s with
        DelayTimer := if s.DelayTimer > 0 then s.DelayTimer - 1 else 0
        SoundTimer := if s.SoundTimer > 0 then s.SoundTimer - 1 else 0 } := by
    obtain ⟨d1, d2⟩ := hd
    obtain ⟨o1, o2⟩ := hso
    rcases s with ⟨G, S, M, V, MA, D, So, PC, St, Sp, Pa, I⟩
    simp only [CPU.updateTimers] at *
    by_cases h1 : D > 0 <;> by_cases h2 : So > 0 <;> simp [h1, h2] <;> omega
  refine ⟨hupd, ?_, ?_⟩
  · rw [hupd]
    simp only
    refine ⟨?_, ?_, ?_, ?_⟩ <;> split <;> omega
  · intro rnd op s' h
    rcases h with h | ⟨e, h⟩
    · obtain ⟨_, _, h1, h2, _⟩ := Execute_ok_frame rnd s op s' h
      have hv : ∀ i, i < 16 → (0 : Int) ≤ (s.V i : Int) ∧ (s.V i : Int) ≤ 255 := by
        intro i hi
        have := hs.1 i hi
        omega
      refine ⟨?_, ?_, ?_, ?_⟩
      · rcases h1 with h1 | ⟨i, hi, h1⟩ <;> rw [h1]
        · exact hd.1
        · exact (hv i hi).1
      · rcases h1 with h1 | ⟨i, hi, h1⟩ <;> rw [h1]
        · exact hd.2
        · exact (hv i hi).2
      · rcases h2 with h2 | ⟨i, hi, h2⟩ <;> rw [h2]
        · exact hso.1
        · exact (hv i hi).1
      · rcases h2 with h2 | ⟨i, hi, h2⟩ <;> rw [h2]
        · exact hso.2
        · exact (hv i hi).2
    · obtain ⟨g, hg⟩ := Execute_error_frame rnd s op e s' h
      rw [hg]
      exact ⟨hd.1, hd.2, hso.1, hso.2⟩

theorem timers_in_range_witness :
    0 ≤ ({ boot with DelayTimer := 3 } : CPU).updateTimers.DelayTimer ∧
    ({ boot with DelayTimer := 3 } : CPU).updateTimers.DelayTimer ≤ 255 ∧
    0 ≤ ({ boot with DelayTimer := 3 } : CPU).updateTimers.SoundTimer ∧
    ({ boot with DelayTimer := 3 } : CPU).updateTimers.SoundTimer ≤ 255 :=
  (timers_in_range { boot with DelayTimer := 3 } boot_WF (by decide) (by decide)).2.1

/-! ## Register store and load (`Fx55`, `Fx65`) -/

theorem storeRegs_spec (c : CPU) :
    ∀ (k i : Nat) (mem : Nat → Nat), c.I + i + k ≤ 4096 →
      ∃ mem', CPU.storeRegs c k i mem = some mem' ∧
        ∀ a, mem' a = if c.I + i ≤ a ∧ a < c.I + i + k then c.V (a - c.I) else mem a := by
  intro k
  induction k with
  | zero =>
    intro i mem _
    refine ⟨mem, rfl, fun a => ?_⟩
    rw [if_neg (by omega)]
  | succ k ih =>
    intro i mem hb
    have e : (c.I + i) % 65536 = c.I + i := by omega
    obtain ⟨mem', h1, h2⟩ := ih (i + 1) (store mem (c.I + i) (c.V i)) (by omega)
    refine ⟨mem', ?_, fun a => ?_⟩
    · unfold CPU.storeRegs
      rw [e, if_pos (by omega)]
      exact h1
    · rw [h2 a]
      unfold store
      by_cases ha : a = c.I + i
      · subst ha
        rw [if_neg (by omega), if_pos rfl, if_pos (by omega)]
        congr 1
        omega
      · by_cases hr : c.I + (i + 1) ≤ a ∧ a < c.I + (i + 1) + k
        · rw [if_pos hr, if_pos (by omega)]
        · rw [if_neg hr, if_neg ha, if_neg (by omega)]

theorem loadRegs_spec (c : CPU) :
    ∀ (k i : Nat) (v : Nat → Nat), c.I + i + k ≤ 4096 →
      ∃ v', CPU.loadRegs c k i v = some v' ∧
        ∀ j, v' j = if i ≤ j ∧ j < i + k then c.Memory (c.I + j) else v j := by
  intro k
  induction k with
  | zero =>
    intro i v _
    refine ⟨v, rfl, fun j => ?_⟩
    rw [if_neg (by omega)]
  | succ k ih =>
    intro i v hb
    have e : (c.I + i) % 65536 = c.I + i := by omega
    obtain ⟨v', h1, h2⟩ := ih (i + 1) (store v i (c.Memory (c.I + i))) (by omega)
    refine ⟨v', ?_, fun j => ?_⟩
    · unfold CPU.loadRegs
      rw [e, if_pos (by omega)]
      exact h1
    · rw [h2 j]
      unfold store
      by_cases hj : j = i
      · subst hj
        rw [if_neg (by omega), if_pos rfl, if_pos (by omega)]
      · by_cases hr : i + 1 ≤ j ∧ j < i + 1 + k
        · rw [if_pos hr, if_pos (by omega)]
        · rw [if_neg hr, if_neg hj, if_neg (by omega)]

theorem Execute_store (rnd : Nat) (s : CPU) (x : Nat) (hx : x < 16) (hI : s.I + x ≤ 4095) :
    ∃ mem, CPU.Execute rnd s (0xF055 + 0x100 * x) = .ok { s with PC := s.PC + 2, Memory := mem } ∧
      ∀ a, mem a = if s.I ≤ a ∧ a ≤ s.I + x then s.V (a - s.I) else s.Memory a := by
  have h1 : (0xF055 + 0x100 * x) / 4096 % 16 = 15 := by omega
  have h2 : (0xF055 + 0x100 * x) / 256 % 16 = x := by omega
  have h3 : (0xF055 + 0x100 * x) % 256 = 0x55 := by omega
  obtain ⟨mem, e1, e2⟩ := storeRegs_spec { s with PC := s.PC + STEP } (x + 1) 0 s.Memory
    (by show s.I + 0 + (x + 1) ≤ 4096; omega)
  refine ⟨mem, ?_, fun a => ?_⟩
  · rw [Execute_familyF _ _ _ h1, h2]
    simp only [CPU.execMisc, dec_lo8, h3]
    norm_num
    rw [e1]
    rfl
  · rw [e2 a]
    show (if s.I + 0 ≤ a ∧ a < s.I + 0 + (x + 1) then s.V (a - s.I) else s.Memory a) = _
    by_cases h : s.I ≤ a ∧ a ≤ s.I + x
    · rw [if_pos h, if_pos (by omega)]
    · rw [if_neg h, if_neg (by omega)]

theorem Execute_load (rnd : Nat) (s : CPU) (x : Nat) (hx : x < 16) (hI : s.I + x ≤ 4095) :
    ∃ v, CPU.Execute rnd s (0xF065 + 0x100 * x) = .ok { s with PC := s.PC + 2, V := v } ∧
      ∀ j, v j = if j ≤ x then s.Memory (s.I + j) else s.V j := by
  have h1 : (0xF065 + 0x100 * x) / 4096 % 16 = 15 := by omega
  have h2 : (0xF065 + 0x100 * x) / 256 % 16 = x := by omega
  have h3 : (0xF065 + 0x100 * x) % 256 = 0x65 := by omega
  obtain ⟨v, e1, e2⟩ := loadRegs_spec { s with PC := s.PC + STEP } (x + 1) 0 s.V
    (by show s.I + 0 + (x + 1) ≤ 4096; omega)
  refine ⟨v, ?_, fun j => ?_⟩
  · rw [Execute_familyF _ _ _ h1, h2]
    simp only [CPU.execMisc, dec_lo8, h3]
    norm_num
    rw [e1]
    rfl
  · rw [e2 j]
    show (if 0 ≤ j ∧ j < 0 + (x + 1) then s.Memory (s.I + j) else s.V j) = _
    by_cases h : j ≤ x
    · rw [if_pos h, if_pos (by omega)]
    · rw [if_neg h, if_neg (by omega)]

/-- C14: with I + x <= 4095, `Fx55` returns no error, sets memory[I + i] = Vi
for every i in 0..x and changes no other memory cell, no register and not I;
`Fx65` returns no error, sets Vi = memory[I + i] for every i in 0..x and
changes no register above x, no memory cell and not I; `Fx55` followed by
`Fx65` leaves every register at its value before the store. -/
theorem store_load_registers (rnd rnd2 : Nat) (s : CPU) (x : Nat) (hx : x < 16)
    (hI : s.I + x ≤ 4095) :
    (∃ s1, CPU.Execute rnd s (0xF055 + 0x100 * x) = .ok s1 ∧
      (∀ i, i ≤ x → s1.Memory (s.I + i) = s.V i) ∧
      (∀ a, a < s.I ∨ s.I + x < a → s1.Memory a = s.Memory a) ∧
      s1.V = s.V ∧ s1.I = s.I ∧
      ∃ s2, CPU.Execute rnd2 s1 (0xF065 + 0x100 * x) = .ok s2 ∧ ∀ i, s2.V i = s.V i) ∧
    (∃ s1, CPU.Execute rnd s (0xF065 + 0x100 * x) = .ok s1 ∧
      (∀ i, i ≤ x → s1.V i = s.Memory (s.I + i)) ∧
      (∀ i, x < i → s1.V i = s.V i) ∧
      s1.Memory = s.Memory ∧ s1.I = s.I) := by
  constructor
  · obtain ⟨mem, e1, e2⟩ := Execute_store rnd s x hx hI
    obtain ⟨v, f1, f2⟩ := Execute_load rnd2 { s with PC := s.PC + 2, Memory := mem } x hx hI
    refine ⟨_, e1, ?_, ?_, rfl, rfl, _, f1, ?_⟩
    · intro i hi
      show mem (s.I + i) = s.V i
      rw [e2, if_pos (by omega)]
      congr 1
      omega
    · intro a ha
      show mem a = s.Memory a
      rw [e2, if_neg (by omega)]
    · intro i
      show v i = s.V i
      rw [f2 i]
      split
      · show mem (s.I + i) = s.V i
        rw [e2, if_pos (by omega)]
        congr 1
        omega
      · rfl
  · obtain ⟨v, f1, f2⟩ := Execute_load rnd s x hx hI
    refine ⟨_, f1, ?_, ?_, rfl, rfl⟩
    · intro i hi
      show v i = _
      rw [f2 i, if_pos hi]
    · intro i hi
      show v i = _
      rw [f2 i, if_neg (by omega)]

theorem store_load_registers_witness :
    ∃ s1, CPU.Execute 0 { boot with I := 0x300 } (0xF065 + 0x100 * 3) = .ok s1 ∧
      (∀ i, i ≤ 3 → s1.V i = ({ boot with I := 0x300 } : CPU).Memory
        (({ boot with I := 0x300 } : CPU).I + i)) ∧
      (∀ i, 3 < i → s1.V i = ({ boot with I := 0x300 } : CPU).V i) ∧
      s1.Memory = ({ boot with I := 0x300 } : CPU).Memory ∧
      s1.I = ({ boot with I := 0x300 } : CPU).I :=
  (store_load_registers 0 0 { boot with I := 0x300 } 3 (by decide) (by decide)).2

/-! ## Cycles -/

theorem be16 (a b : Nat) (hb : b < 256) : (a <<< 8) ||| b = 256 * a + b := by
  rw [Nat.shiftLeft_eq, Nat.mul_comm]
  exact (Nat.mul_add_lt_is_or (by simpa using hb) a).symm

theorem Execute_ld (rnd : Nat) (s : CPU) (x kk : Nat) (hx : x < 16) (hkk : kk < 256) :
    CPU.Execute rnd s (0x6000 + 0x100 * x + kk) =
      .ok { s with PC := s.PC + 2, V := store s.V x kk } := by
  have h1 : (0x6000 + 0x100 * x + kk) / 4096 % 16 = 6 := by omega
  have h2 : (0x6000 + 0x100 * x + kk) / 256 % 16 = x := by omega
  have h3 : (0x6000 + 0x100 * x + kk) % 256 = kk := by omega
  simp [CPU.Execute, dec_top, dec_x, dec_kk, h1, h2, h3, STEP, Nat.mod_eq_of_lt hkk]

theorem Execute_addi (rnd : Nat) (s : CPU) (x kk : Nat) (hx : x < 16) (hkk : kk < 256) :
    CPU.Execute rnd s (0x7000 + 0x100 * x + kk) =
      .ok { s with PC := s.PC + 2, V := store s.V x ((s.V x + kk) % 256) } := by
  have h1 : (0x7000 + 0x100 * x + kk) / 4096 % 16 = 7 := by omega
  have h2 : (0x7000 + 0x100 * x + kk) / 256 % 16 = x := by omega
  have h3 : (0x7000 + 0x100 * x + kk) % 256 = kk := by omega
  simp [CPU.Execute, dec_top, dec_x, dec_kk, h1, h2, h3, STEP, Nat.mod_eq_of_lt hkk]

/-- A cycle of speed 1 on a running machine fetches the opcode big-endian at
the program counter, executes it and then ticks the timers and the speaker. -/
theorem Cycle_one (rnd : Nat → Nat) (s c1 : CPU) (p : Nat) (hsp : s.Speed = 1)
    (hpa : s.Paused = false) (hpc : s.PC = (p : Int)) (hp : p + 2 ≤ 4096)
    (hm : s.Memory (p + 1) < 256)
    (h : CPU.Execute (rnd 0) s (256 * s.Memory p + s.Memory (p + 1)) = .ok c1) :
    CPU.Cycle rnd s = .ok (CPU.playSounds (CPU.updateTimers c1)) := by
  have e : s.PC.toNat = p := by rw [hpc]; simp
  unfold CPU.Cycle
  rw [hsp]
  have : (1 : Int).toNat = 1 := rfl
  rw [this]
  unfold CPU.cycleLoop
  simp only [hpa, Bool.not_false, if_true]
  rw [if_pos (by rw [hpc]; omega), e, be16 _ _ hm, h]
  simp [CPU.cycleLoop]

theorem tick_frame (c : CPU) :
    (CPU.playSounds (CPU.updateTimers c)).V = c.V ∧
    (CPU.playSounds (CPU.updateTimers c)).PC = c.PC ∧
    (CPU.playSounds (CPU.updateTimers c)).Memory = c.Memory ∧
    (CPU.playSounds (CPU.updateTimers c)).Speed = c.Speed ∧
    (CPU.playSounds (CPU.updateTimers c)).Paused = c.Paused := by
  unfold CPU.playSounds CPU.updateTimers
  simp only
  split_ifs <;> exact ⟨rfl, rfl, rfl, rfl, rfl⟩


/-- C15: for a register index x and bytes kk, jj, on a running machine
with PC = 0x200 and Speed = 1, loading the program [0x6x, kk, 0x7x, jj]
succeeds; the first cycle executes the opcode read big-endian from
memory[0x200], memory[0x201], returns no error and leaves Vx = kk and
PC = 0x202; the second cycle executes the opcode read from memory[0x202],
memory[0x203], returns no error and leaves Vx = (kk + jj) mod 256 and
PC = 0x204. -/
theorem load_and_run (rnd rnd2 : Nat → Nat) (s : CPU) (x kk jj : Nat) (hx : x < 16)
    (hkk : kk < 256) (hjj : jj < 256) (hpc : s.PC = 0x200) (hsp : s.Speed = 1)
    (hpa : s.Paused = false) :
    ∃ s0 s1 s2, s.loadProgramIntoMemory [0x60 + x, kk, 0x70 + x, jj] = .ok s0 ∧
      (∃ c1, CPU.Execute (rnd 0) s0 (256 * s0.Memory 0x200 + s0.Memory 0x201) = .ok c1 ∧
        s1 = CPU.playSounds (CPU.updateTimers c1)) ∧
      CPU.Cycle rnd s0 = .ok s1 ∧ s1.V x = kk ∧ s1.PC = 0x202 ∧
      (∃ c2, CPU.Execute (rnd2 0) s1 (256 * s1.Memory 0x202 + s1.Memory 0x203) = .ok c2 ∧
        s2 = CPU.playSounds (CPU.updateTimers c2)) ∧
      CPU.Cycle rnd2 s1 = .ok s2 ∧ s2.V x = (kk + jj) % 256 ∧ s2.PC = 0x204 := by
  have hload : s.loadProgramIntoMemory [0x60 + x, kk, 0x70 + x, jj] =
      .ok { s with Memory := store (store (store (store s.Memory 0x200 (0x60 + x)) 0x201 kk)
        0x202 (0x70 + x)) 0x203 jj } := by
    simp [CPU.loadProgramIntoMemory, CPU.loadProgramIntoMemory.go]
  generalize hs0 : ({ s with Memory := store (store (store (store s.Memory 0x200 (0x60 + x))
    0x201 kk) 0x202 (0x70 + x)) 0x203 jj } : CPU) = s0 at hload
  have m0 : s0.Memory 0x200 = 0x60 + x := by rw [← hs0]; simp [store]
  have m1 : s0.Memory 0x201 = kk := by rw [← hs0]; simp [store]
  have m2 : s0.Memory 0x202 = 0x70 + x := by rw [← hs0]; simp [store]
  have m3 : s0.Memory 0x203 = jj := by rw [← hs0]; simp [store]
  have p0 : s0.PC = 0x200 := by rw [← hs0]; exact hpc
  have sp0 : s0.Speed = 1 := by rw [← hs0]; exact hsp
  have pa0 : s0.Paused = false := by rw [← hs0]; exact hpa
  have o1 : 256 * s0.Memory 0x200 + s0.Memory 0x201 = 0x6000 + 0x100 * x + kk := by
    rw [m0, m1]; omega
  have x1 := Execute_ld (rnd 0) s0 x kk hx hkk
  rw [← o1] at x1
  have c1 := Cycle_one rnd s0 _ 0x200 sp0 pa0 p0 (by norm_num) (by rw [m1]; exact hkk) x1
  obtain ⟨t1, t2, t3, t4, t5⟩ := tick_frame { s0 with PC := s0.PC + 2, V := store s0.V x kk }
  generalize hs1 : CPU.playSounds (CPU.updateTimers
    { s0 with PC := s0.PC + 2, V := store s0.V x kk }) = s1 at c1 t1 t2 t3 t4 t5
  simp only at t1 t2 t3 t4 t5
  have p1 : s1.PC = ((0x202 : Nat) : Int) := by rw [t2, p0]; norm_num
  have o2 : 256 * s1.Memory 0x202 + s1.Memory 0x203 = 0x7000 + 0x100 * x + jj := by
    rw [t3, m2, m3]; omega
  have x2 := Execute_addi (rnd2 0) s1 x jj hx hjj
  rw [← o2] at x2
  have c2 := Cycle_one rnd2 s1 _ 0x202 (t4.trans sp0) (t5.trans pa0) p1 (by norm_num) (by rw [t3, m3]; exact hjj) x2
  obtain ⟨u1, u2, _, _, _⟩ :=
    tick_frame { s1 with PC := s1.PC + 2, V := store s1.V x ((s1.V x + jj) % 256) }
  simp only at u1 u2
  refine ⟨s0, s1, _, hload, ⟨_, x1, hs1.symm⟩, c1, ?_, ?_, ⟨_, x2, rfl⟩, c2, ?_, ?_⟩
  · rw [t1]; simp [store]
  · rw [p1]; norm_num
  · rw [u1, t1]; simp [store]
  · rw [u2, p1]; norm_num

theorem load_and_run_witness :
    ∃ s0 s1 s2, ({ boot with Speed := 1 } : CPU).loadProgramIntoMemory [0x60, 0x05, 0x70, 0x03]
        = .ok s0 ∧
      CPU.Cycle (fun _ => 0) s0 = .ok s1 ∧ s1.V 0 = 5 ∧ s1.PC = 0x202 ∧
      CPU.Cycle (fun _ => 0) s1 = .ok s2 ∧ s2.V 0 = 8 ∧ s2.PC = 0x204 := by
  obtain ⟨s0, s1, s2, h0, _, h1, h2, h3, _, h4, h5, h6⟩ :=
    load_and_run (fun _ => 0) (fun _ => 0) { boot with Speed := 1 } 0 5 3 (by decide)
      (by decide) (by decide) rfl rfl rfl
  exact ⟨s0, s1, s2, h0, h1, h2, h3, h4, h5, h6⟩

/-! ## Clearing the display (`00E0`) -/

theorem at?_Clear (cg : CLIGraphics) (x y : Nat) :
    cg.Clear.at? x y = (cg.at? x y).map fun _ => false := by
  unfold CLIGraphics.at? CLIGraphics.Clear
  simp only [List.getElem?_map]
  cases cg.Grid[y]? with
  | none => rfl
  | some row => simp only [Option.map_some', List.getElem?_map]

/-- C16: on a machine whose display grid has width W and height H,
`00E0` returns no error and changes nothing but the program counter (plus
2) and the display; the cleared display has the same dimensions and
`Read(x, y)` returns false with no error for every 0 <= x < W and
0 <= y < H. -/
theorem clear_display (rnd : Nat) (s : CPU) (hg : s.G.WF) :
    CPU.Execute rnd s 0x00E0 = .ok { s with PC := s.PC + 2, G := s.G.Clear } ∧
    s.G.Clear.Width = s.G.Width ∧ s.G.Clear.Height = s.G.Height ∧
    ∀ x y : Int, 0 ≤ x → x < s.G.Width → 0 ≤ y → y < s.G.Height →
      s.G.Clear.Read x y = .ok false := by
  refine ⟨by simp [CPU.Execute, dec_top, STEP], rfl, rfl, ?_⟩
  intro x y hx0 hx1 hy0 hy1
  obtain ⟨v, hv⟩ := at?_isSome s.G hg x y ⟨hx0, hx1⟩ ⟨hy0, hy1⟩
  apply Read_eq s.G.Clear x y ⟨hx0, hx1⟩ ⟨hy0, hy1⟩
  rw [at?_Clear, hv]
  rfl

theorem clear_display_witness :
    CPU.Execute 0 boot 0x00E0 = .ok { boot with PC := boot.PC + 2, G := boot.G.Clear } :=
  (clear_display 0 boot bootG_WF).1

/-! ## Dimension errors in the draw instruction -/

theorem rowCells_ge (b : Nat) (vx vy : Int) (row : Nat) :
    ∀ q ∈ rowCells b vx vy row, vx ≤ q.1 ∧ q.1 ≤ vx + 7 ∧ q.2 = vy + (row : Int) := by
  intro q hq
  unfold rowCells at hq
  rw [List.mem_filterMap] at hq
  obtain ⟨col, hcol, hq⟩ := hq
  have hc : col < 8 := List.mem_range.mp hcol
  split at hq
  · cases hq
    exact ⟨by simp, by simp; omega, rfl⟩
  · cases hq

theorem spriteCells_ge (mem : Nat → Nat) (i : Nat) (vx vy : Int) (n : Nat) :
    ∀ q ∈ spriteCells mem i vx vy n, vx ≤ q.1 ∧ q.1 ≤ vx + 7 ∧ vy ≤ q.2 ∧ q.2 < vy + (n : Int) := by
  intro q hq
  unfold spriteCells at hq
  rw [List.mem_flatMap] at hq
  obtain ⟨row, hrow, hq⟩ := hq
  have hr : row < n := List.mem_range.mp hrow
  obtain ⟨h1, h2, h3⟩ := rowCells_ge _ _ _ _ q hq
  omega

/-- Toggling coordinates that all lie within the single-wrap range succeeds. -/
theorem toggleList_inrange (cells : List (Int × Int)) :
    ∀ (g : CLIGraphics) (vF : Nat), g.WF →
      (∀ q ∈ cells, (-g.Width ≤ q.1 ∧ q.1 < 2 * g.Width) ∧
        (-g.Height ≤ q.2 ∧ q.2 < 2 * g.Height)) →
      ∃ vF', toggleList g vF cells = .ok (gridAfter g cells, vF') := by
  induction cells with
  | nil => intro g vF _ _; exact ⟨vF, rfl⟩
  | cons p ps ih =>
    intro g vF hg hin
    obtain ⟨hx, hy⟩ := hin p (List.mem_cons_self _ _)
    obtain ⟨v, _, hT⟩ := Toggle_ok g hg p.1 p.2 hx hy
    obtain ⟨_, _, _, hg1, hw1, hh1⟩ := Toggle_spec g hg p.1 p.2 v _ hT
    obtain ⟨vF', h⟩ := ih _ (if v then 1 else vF) hg1 (by
      intro q hq
      rw [hw1, hh1]
      exact hin q (List.mem_cons_of_mem _ hq))
    refine ⟨vF', ?_⟩
    have hcons : gridAfter g (p :: ps) =
        gridAfter (g.put (p.1 % g.Width).toNat (p.2 % g.Height).toNat (!v)) ps := by
      simp [gridAfter, hT]
    rw [hcons]
    unfold toggleList
    rw [hT]
    exact h

theorem gridAfter_WF (cells : List (Int × Int)) :
    ∀ (g : CLIGraphics), g.WF →
      (gridAfter g cells).WF ∧ (gridAfter g cells).Width = g.Width ∧
        (gridAfter g cells).Height = g.Height := by
  induction cells with
  | nil => intro g hg; exact ⟨hg, rfl, rfl⟩
  | cons p ps ih =>
    intro g hg
    cases hT : g.Toggle p.1 p.2 with
    | crash =>
      have : gridAfter g (p :: ps) = gridAfter g ps := by simp [gridAfter, hT]
      rw [this]; exact ih g hg
    | error e r =>
      have : gridAfter g (p :: ps) = gridAfter g ps := by simp [gridAfter, hT]
      rw [this]; exact ih g hg
    | ok r =>
      obtain ⟨v, g1⟩ := r
      have : gridAfter g (p :: ps) = gridAfter g1 ps := by simp [gridAfter, hT]
      obtain ⟨_, _, _, hg1, hw1, hh1⟩ := Toggle_spec g hg p.1 p.2 v g1 hT
      obtain ⟨a, b, c⟩ := ih g1 hg1
      rw [this]
      exact ⟨a, b.trans hw1, c.trans hh1⟩

/-- The error `Toggle` returns for a coordinate that is non-negative and at
least two widths or two heights out. -/
theorem Toggle_far (g : CLIGraphics) (hg : g.WF) (x y : Int) (hx0 : 0 ≤ x)
    (hbad : x ≥ 2 * g.Width ∨ y ≥ 2 * g.Height) :
    g.Toggle x y = .error (.dimension
      (if x ≥ 2 * g.Width then .range .x (-g.Width) (2 * g.Width) x
       else .range .y (-g.Height) (2 * g.Height) y)) (false, g) := by
  have hW := hg.1
  have hH := hg.2.1
  unfold CLIGraphics.Toggle
  by_cases hx : x ≥ 2 * g.Width
  · rw [if_pos hx, CheckDimensions_x_err g x y hW (by omega)]
  · rw [if_neg hx, CheckDimensions_y_err g x y hW hH (by omega) (by omega)]

theorem drawRows_split (mem : Nat → Nat) (i : Nat) (vx vy : Int) (k2 : Nat) :
    ∀ (k1 row : Nat) (g : CLIGraphics) (vF : Nat),
      CPU.drawRows mem i vx vy (k1 + k2) row g vF =
        match CPU.drawRows mem i vx vy k1 row g vF with
        | .crash => .crash
        | .error e r => .error e r
        | .ok (g1, vF1) => CPU.drawRows mem i vx vy k2 (row + k1) g1 vF1 := by
  intro k1
  induction k1 with
  | zero => intro row g vF; simp [CPU.drawRows]
  | succ k1 ih =>
    intro row g vF
    have e : k1 + 1 + k2 = (k1 + k2) + 1 := by omega
    rw [e]
    simp only [CPU.drawRows]
    by_cases hlt : i + row < 4096
    · rw [if_pos hlt, if_pos hlt]
      cases hC : CPU.drawCols vx vy row 8 0 (mem (i + row)) g vF with
      | crash => rfl
      | error e r => rfl
      | ok r =>
        obtain ⟨g1, vF1⟩ := r
        simp only
        rw [ih (row + 1) g1 vF1]
        have e2 : row + 1 + k1 = row + (k1 + 1) := by omega
        rw [e2]
    · rw [if_neg hlt, if_neg hlt]


/-- The draw instruction stops at the first set bit that lies two widths or
two heights out, with the cells before it toggled. -/
theorem Execute_draw_error (rnd : Nat) (s : CPU) (x y n r : Nat) (hx : x < 16)
    (hy : y < 16) (hn : n < 16) (hs : s.WF) (hg : s.G.WF) (hr : r < n)
    (hmem : s.I + r < 4096) (pre post : List (Int × Int)) (p : Int × Int)
    (hcells : spriteCells s.Memory s.I (s.V x) (s.V y) (r + 1) = pre ++ p :: post)
    (hpre : ∀ q ∈ pre, q.1 < 2 * s.G.Width ∧ q.2 < 2 * s.G.Height)
    (hbad : p.1 ≥ 2 * s.G.Width ∨ p.2 ≥ 2 * s.G.Height) :
    CPU.Execute rnd s (0xD000 + 0x100 * x + 0x10 * y + n) =
      .error (.dimension
        (if p.1 ≥ 2 * s.G.Width then .range .x (-s.G.Width) (2 * s.G.Width) p.1
         else .range .y (-s.G.Height) (2 * s.G.Height) p.2))
        { s with PC := s.PC + 2, G := gridAfter s.G pre } := by
  have h1 : (0xD000 + 0x100 * x + 0x10 * y + n) / 4096 % 16 = 13 := by omega
  have h2 : (0xD000 + 0x100 * x + 0x10 * y + n) / 256 % 16 = x := by omega
  have h3 : (0xD000 + 0x100 * x + 0x10 * y + n) / 16 % 16 = y := by omega
  have h4 : (0xD000 + 0x100 * x + 0x10 * y + n) % 16 = n := by omega
  have hW := hg.1
  have hH := hg.2.1
  have hge := spriteCells_ge s.Memory s.I (s.V x) (s.V y) (r + 1)
  rw [hcells] at hge
  have hpin : ∀ q ∈ pre, (-s.G.Width ≤ q.1 ∧ q.1 < 2 * s.G.Width) ∧
      (-s.G.Height ≤ q.2 ∧ q.2 < 2 * s.G.Height) := by
    intro q hq
    have := hge q (List.mem_append_left _ hq)
    have := hpre q hq
    omega
  have hp0 := hge p (List.mem_append_right _ (List.mem_cons_self _ _))
  obtain ⟨vF1, hpre_ok⟩ := toggleList_inrange pre s.G 0 hg hpin
  obtain ⟨hgw, hw, hh⟩ := gridAfter_WF pre s.G hg
  have hfar := Toggle_far (gridAfter s.G pre) hgw p.1 p.2 (by omega) (by rw [hw, hh]; exact hbad)
  rw [hw, hh] at hfar
  have htl : toggleList s.G 0 (pre ++ p :: post) =
      .error (.dimension
        (if p.1 ≥ 2 * s.G.Width then .range .x (-s.G.Width) (2 * s.G.Width) p.1
         else .range .y (-s.G.Height) (2 * s.G.Height) p.2)) (gridAfter s.G pre, vF1) := by
    rw [toggleList_append, hpre_ok]
    simp only [toggleList, hfar]
  have hrows := drawRows_eq s.Memory s.I (s.V x) (s.V y) hs.2.1 (r + 1) 0 s.G 0
    (Or.inr (by omega))
  rw [← List.range_eq_range'] at hrows
  have hrows' : CPU.drawRows s.Memory s.I (s.V x) (s.V y) (r + 1) 0 s.G 0 =
      toggleList s.G 0 (spriteCells s.Memory s.I (s.V x) (s.V y) (r + 1)) := hrows
  rw [hcells, htl] at hrows'
  have hn' : n = (r + 1) + (n - (r + 1)) := by omega
  rw [Execute_familyD _ _ _ h1, h2, h3, h4, hn', drawRows_split, hrows']
  rfl

/-- C17: on a well-formed machine with a W x H display, let rows 0..r of
the sprite lie in memory (r < n, I + r < 4096) and let p be the first
coordinate, among those that the set bits of these rows ask for in row-major
order (most significant bit first), with p.x >= 2W or p.y >= 2H. Then `Dxyn`
returns the `DimensionError` of p (about x when p.x >= 2W, otherwise about
y); in the state it leaves, the program counter is advanced by 2, the
display has exactly the cells before p toggled, and every register (VF
included), memory, I, the stack and the timers are as before the
instruction. -/
theorem draw_dimension_error (rnd : Nat) (s : CPU) (x y n r : Nat) (hx : x < 16)
    (hy : y < 16) (hn : n < 16) (hs : s.WF) (hg : s.G.WF) (hr : r < n)
    (hmem : s.I + r < 4096) (pre post : List (Int × Int)) (p : Int × Int)
    (hcells : spriteCells s.Memory s.I (s.V x) (s.V y) (r + 1) = pre ++ p :: post)
    (hpre : ∀ q ∈ pre, q.1 < 2 * s.G.Width ∧ q.2 < 2 * s.G.Height)
    (hbad : p.1 ≥ 2 * s.G.Width ∨ p.2 ≥ 2 * s.G.Height) :
    CPU.Execute rnd s (0xD000 + 0x100 * x + 0x10 * y + n) =
      .error (.dimension
        (if p.1 ≥ 2 * s.G.Width then .range .x (-s.G.Width) (2 * s.G.Width) p.1
         else .range .y (-s.G.Height) (2 * s.G.Height) p.2))
        { s with PC := s.PC + 2, G := gridAfter s.G pre } :=
  Execute_draw_error rnd s x y n r hx hy hn hs hg hr hmem pre post p hcells hpre hbad

theorem draw_dimension_error_witness :
    CPU.Execute 0 (bootWith fun i => if i = 0 then 127 else 0)
        (0xD000 + 0x100 * 0 + 0x10 * 1 + 5) =
      .error (.dimension (.range .x (-64) 128 128))
        { bootWith (fun i => if i = 0 then 127 else 0) with
          PC := 0x202, G := gridAfter boot.G [(127, 0)] } ∧
    boot.G.Read 63 0 = .ok false ∧
    (gridAfter boot.G [(127, 0)]).Read 63 0 = .ok true ∧
    (gridAfter boot.G [(127, 0)]).Read 1 0 = .ok false ∧
    (gridAfter boot.G [(127, 0)]).Read 63 1 = .ok false :=
  ⟨draw_dimension_error 0 (bootWith fun i => if i = 0 then 127 else 0) 0 1 5 0
    (by decide) (by decide) (by decide)
    (bootWith_WF _ (fun i _ => by split <;> decide)) bootG_WF (by decide) (by decide)
    [(127, 0)] [(129, 0), (130, 0)] (128, 0) (by decide) (by decide)
    (Or.inl (by decide)), rfl, rfl, rfl, rfl⟩

/-! ## Errors inside a cycle -/

theorem cycleLoop_fetch (rnd : Nat → Nat) (k i : Nat) (c : CPU) (op : Nat)
    (hp : c.Paused = false) (hf : fetch c = some op) :
    CPU.cycleLoop rnd (k + 1) i c =
      match CPU.Execute (rnd i) c op with
      | .crash => .crash
      | .error e c1 => .error e c1
      | .ok c1 => CPU.cycleLoop rnd k (i + 1) c1 := by
  unfold fetch at hf
  split at hf
  · next hr =>
    cases hf
    simp only [CPU.cycleLoop, hp, Bool.not_false, if_true]
    rw [if_pos hr]
  · cases hf

theorem cycleLoop_steps (rnd : Nat → Nat) {i k : Nat} {c c' : CPU} (h : Steps rnd i c k c') :
    c.Paused = false →
      c'.Paused = false ∧ ∀ m, CPU.cycleLoop rnd (k + m) i c = CPU.cycleLoop rnd m (i + k) c' := by
  induction h with
  | done i c => intro hp; exact ⟨hp, fun m => by simp⟩
  | @next i0 c0 c1 c2 op k0 hf hE _ ih =>
    intro hp
    obtain ⟨hp1, _⟩ := Execute_ok_frame _ _ _ _ hE
    obtain ⟨hp', hm⟩ := ih (hp1.trans hp)
    refine ⟨hp', fun m => ?_⟩
    have e : k0 + 1 + m = (k0 + m) + 1 := by omega
    rw [e, cycleLoop_fetch rnd _ _ _ _ hp hf, hE]
    simp only
    rw [hm m]
    congr 1
    omega

/-- C18: on a running machine with Speed = n: if the first k - 1
instructions of a cycle return normally and the k-th `Execute` (k <= n)
returns an error, `Cycle` returns that same error together with the state
that `Execute` left, in which neither timer has changed; no later
instruction runs. If all n instructions return normally, `Cycle` returns no
error and its state is the one after the n-th instruction with the timers
decremented once (each only when positive) and the speaker updated. -/
theorem cycle_error_propagation (rnd : Nat → Nat) (s : CPU) (n : Nat)
    (hn : s.Speed = (n : Int)) (hp : s.Paused = false) :
    (∀ k c1 op e c2, 1 ≤ k → k ≤ n → Steps rnd 0 s (k - 1) c1 → fetch c1 = some op →
      CPU.Execute (rnd (k - 1)) c1 op = .error e c2 →
      CPU.Cycle rnd s = .error e c2 ∧
        c2.DelayTimer = c1.DelayTimer ∧ c2.SoundTimer = c1.SoundTimer) ∧
    (∀ c', Steps rnd 0 s n c' →
      CPU.Cycle rnd s = .ok (CPU.playSounds (CPU.updateTimers c')) ∧
      (CPU.playSounds (CPU.updateTimers c')).DelayTimer =
        (if c'.DelayTimer > 0 then c'.DelayTimer - 1 else c'.DelayTimer) ∧
      (CPU.playSounds (CPU.updateTimers c')).SoundTimer =
        (if c'.SoundTimer > 0 then c'.SoundTimer - 1 else c'.SoundTimer)) := by
  have hsp : s.Speed.toNat = n := by rw [hn]; simp
  constructor
  · intro k c1 op e c2 hk1 hk2 hst hf hE
    obtain ⟨hp1, hm⟩ := cycleLoop_steps rnd hst hp
    simp only [Nat.zero_add] at hm
    obtain ⟨g, hg⟩ := Execute_error_frame _ _ _ _ _ hE
    refine ⟨?_, by rw [hg], by rw [hg]⟩
    have e : n = (k - 1) + ((n - k) + 1) := by omega
    unfold CPU.Cycle
    rw [hsp, e, hm, cycleLoop_fetch rnd _ _ _ _ hp1 hf, hE]
  · intro c' hst
    obtain ⟨_, hm⟩ := cycleLoop_steps rnd hst hp
    simp only [Nat.zero_add] at hm
    refine ⟨?_, ?_, ?_⟩
    · unfold CPU.Cycle
      have := hm 0
      rw [Nat.add_zero] at this
      rw [hsp, this]
      simp [CPU.cycleLoop]
    · unfold CPU.playSounds CPU.updateTimers
      simp only
      split_ifs <;> rfl
    · unfold CPU.playSounds CPU.updateTimers
      simp only
      split_ifs <;> rfl

theorem store_lt (m : Nat → Nat) (i v : Nat) (hv : v < 256) (hm : ∀ a, a < 4096 → m a < 256) :
    ∀ a, a < 4096 → store m i v a < 256 := by
  intro a ha
  unfold store
  split
  · exact hv
  · exact hm a ha

theorem progState_mem : ∀ a, a < 4096 → progState.Memory a < 256 :=
  store_lt _ _ _ (by decide) (store_lt _ _ _ (by decide) (store_lt _ _ _ (by decide)
    (store_lt _ _ _ (by decide) boot_WF.2.1)))

set_option maxRecDepth 100000 in
theorem cycle_error_propagation_witness :
    (CPU.Cycle (fun _ => 0) progState =
        .error (.dimension (.range .x (-64) 128 200))
          { progState with PC := 0x204, V := store progState.V 0 200 } ∧
      ({ progState with PC := 0x204, V := store progState.V 0 200 } : CPU).DelayTimer = 3 ∧
      ({ progState with PC := 0x204, V := store progState.V 0 200 } : CPU).SoundTimer = 1) ∧
    (∃ c, CPU.Cycle (fun _ => 0) { progState with Speed := 1 } = .ok c ∧
      c.V 0 = 200 ∧ c.PC = 0x202 ∧ c.DelayTimer = 2 ∧ c.SoundTimer = 0) := by
  have hwf1 : ({ progState with PC := 0x202, V := store progState.V 0 200 } : CPU).WF :=
    ⟨fun i hi => store_lt progState.V 0 200 (by decide)
        (fun _ _ => by show (0 : Nat) < 256; decide) i (by omega),
      progState_mem, by decide⟩
  constructor
  · exact (cycle_error_propagation (fun _ => 0) progState 3 rfl rfl).1 2
      { progState with PC := 0x202, V := store progState.V 0 200 } 0xD015
      (.dimension (.range .x (-64) 128 200))
      { progState with PC := 0x204, V := store progState.V 0 200 }
      (by decide) (by decide)
      (Steps.next (by decide : fetch progState = some 0x60C8)
        (Execute_ld 0 progState 0 200 (by decide) (by decide)) (Steps.done _ _))
      (by decide)
      (Execute_draw_error 0 { progState with PC := 0x202, V := store progState.V 0 200 }
        0 1 5 0 (by decide) (by decide) (by decide) hwf1 bootG_WF (by decide) (by decide)
        [] [(201, 0), (202, 0), (203, 0)] (200, 0) (by decide) (by simp)
        (Or.inl (by decide)))
  · obtain ⟨h, hd, hso⟩ := (cycle_error_propagation (fun _ => 0)
      { progState with Speed := 1 } 1 rfl rfl).2
      { progState with Speed := 1, PC := 0x202, V := store progState.V 0 200 }
      (Steps.next (by decide : fetch { progState with Speed := 1 } = some 0x60C8)
        (Execute_ld 0 { progState with Speed := 1 } 0 200 (by decide) (by decide))
        (Steps.done _ _))
    exact ⟨_, h, rfl, rfl, hd, hso⟩

/-! ## The flag register -/

/-- What a draw that returns normally leaves behind. -/
theorem draw_ok_spec (rnd : Nat) (s : CPU) (x y n : Nat) (hx : x < 16) (hy : y < 16)
    (hn : n < 16) (hs : s.WF) (hg : s.G.WF) :
    ∀ s', CPU.Execute rnd s (0xD000 + 0x100 * x + 0x10 * y + n) = .ok s' →
      s' = { s with PC := s.PC + 2,
                    G := gridAfter s.G (spriteCells s.Memory s.I (s.V x) (s.V y) n),
                    V := store s.V 0xf (s'.V 0xF) } ∧
      (s'.V 0xF = 0 ∨ s'.V 0xF = 1) ∧
      (s'.V 0xF = 1 ↔ ∃ k p,
        (spriteCells s.Memory s.I (s.V x) (s.V y) n)[k]? = some p ∧
        (gridAfter s.G ((spriteCells s.Memory s.I (s.V x) (s.V y) n).take k)).Read
          (p.1 % s.G.Width) (p.2 % s.G.Height) = .ok true ∧
        (gridAfter s.G ((spriteCells s.Memory s.I (s.V x) (s.V y) n).take (k + 1))).Read
          (p.1 % s.G.Width) (p.2 % s.G.Height) = .ok false) := by
  have h1 : (0xD000 + 0x100 * x + 0x10 * y + n) / 4096 % 16 = 13 := by omega
  have h2 : (0xD000 + 0x100 * x + 0x10 * y + n) / 256 % 16 = x := by omega
  have h3 : (0xD000 + 0x100 * x + 0x10 * y + n) / 16 % 16 = y := by omega
  have h4 : (0xD000 + 0x100 * x + 0x10 * y + n) % 16 = n := by omega
  rw [Execute_familyD _ _ _ h1, h2, h3, h4]
  intro s' h
  cases hD : CPU.drawRows s.Memory s.I (s.V x) (s.V y) n 0 s.G 0 with
  | crash => rw [hD] at h; cases h
  | error e r => rw [hD] at h; cases h
  | ok r =>
    obtain ⟨g, vF⟩ := r
    rw [hD] at h
    simp only [Outcome.ok.injEq] at h
    subst h
    have hb := drawRows_ok_bound _ _ _ _ _ _ _ _ _ hD
    have e := drawRows_eq s.Memory s.I (s.V x) (s.V y) hs.2.1 n 0 s.G 0 hb
    rw [← List.range_eq_range'] at e
    have e' : CPU.drawRows s.Memory s.I (s.V x) (s.V y) n 0 s.G 0
        = toggleList s.G 0 (spriteCells s.Memory s.I (s.V x) (s.V y) n) := e
    rw [e'] at hD
    obtain ⟨t1, _, _, _, t5, t6⟩ := toggleList_spec _ s.G 0 g vF hg hD
    refine ⟨?_, ?_, ?_⟩
    · simp [store, t1, STEP]
    · simpa [store] using t5
    · simpa [store] using t6

/-- The flag an arithmetic or shift instruction of family 8 leaves in VF. -/
theorem Execute_flag (rnd : Nat) (s : CPU) (x y m : Nat) (hx : x < 16) (hy : y < 16)
    (hm : m = 4 ∨ m = 5 ∨ m = 6 ∨ m = 7 ∨ m = 14) :
    ∃ s', CPU.Execute rnd s (0x8000 + 0x100 * x + 0x10 * y + m) = .ok s' ∧
      s'.V 0xF =
        (if m = 4 then (if (s.V x + s.V y) % 65536 > 255 then 1 else 0)
         else if m = 5 then (if s.V x > s.V y then 1 else 0)
         else if m = 6 then s.V x % 2
         else if m = 7 then (if s.V y > s.V x then 1 else 0)
         else s.V x / 128 % 2) := by
  have h1 : (0x8000 + 0x100 * x + 0x10 * y + m) / 4096 % 16 = 8 := by omega
  have h2 : (0x8000 + 0x100 * x + 0x10 * y + m) / 256 % 16 = x := by omega
  have h3 : (0x8000 + 0x100 * x + 0x10 * y + m) / 16 % 16 = y := by omega
  have h4 : (0x8000 + 0x100 * x + 0x10 * y + m) % 16 = m := by omega
  rw [Execute_family8 _ _ _ h1, h2, h3]
  refine ⟨_, rfl, ?_⟩
  simp only [CPU.execALU, dec_n, h4, and_bit0, and_bit7]
  rcases hm with rfl | rfl | rfl | rfl | rfl
  · simp [store]
  · simp [store]
  · rcases Nat.mod_two_eq_zero_or_one (s.V x) with h | h <;> simp [store, h]
  · simp [store]
  · rcases Nat.mod_two_eq_zero_or_one (s.V x / 128) with h | h <;> simp [store, h]

/-- A family-8 instruction with selector 0..3 only assigns Vx. -/
theorem Execute_logic (rnd : Nat) (s : CPU) (x y m : Nat) (hx : x < 16) (hy : y < 16)
    (hm : m < 4) :
    ∃ v, CPU.Execute rnd s (0x8000 + 0x100 * x + 0x10 * y + m) =
      .ok { s with PC := s.PC + 2, V := store s.V x v } := by
  have h1 : (0x8000 + 0x100 * x + 0x10 * y + m) / 4096 % 16 = 8 := by omega
  have h2 : (0x8000 + 0x100 * x + 0x10 * y + m) / 256 % 16 = x := by omega
  have h3 : (0x8000 + 0x100 * x + 0x10 * y + m) / 16 % 16 = y := by omega
  have h4 : (0x8000 + 0x100 * x + 0x10 * y + m) % 16 = m := by omega
  rw [Execute_family8 _ _ _ h1, h2, h3]
  simp only [CPU.execALU, dec_n, h4, STEP]
  interval_cases m <;> norm_num


/-- C19: on a well-formed machine, for all register indices x and y
(x = 0xF included), `8xy4`, `8xy5`, `8xy6`, `8xy7` and `8xyE` return no
error and leave in VF a value that is 0 or 1 and equals the instruction's
flag computed from the registers as they were before it (carry of Vx + Vy,
Vx > Vy, bit 0 of Vx, Vy > Vx, bit 7 of Vx); a `Dxyn` that returns normally
leaves VF = 0 or 1, and 1 exactly when one of its toggles found its cell set
and left it unset. `6xkk`, `7xkk` and `8xy0`..`8xy3` leave VF as it was when
x is not 0xF, and `Fx1E` changes no register at all. -/
theorem flag_register (rnd : Nat) (s : CPU) (x y : Nat) (hx : x < 16) (hy : y < 16)
    (hs : s.WF) (hg : s.G.WF) :
    (∃ s', CPU.Execute rnd s (0x8004 + 0x100 * x + 0x10 * y) = .ok s' ∧ s'.V 0xF ≤ 1 ∧
      s'.V 0xF = (if s.V x + s.V y > 255 then 1 else 0)) ∧
    (∃ s', CPU.Execute rnd s (0x8005 + 0x100 * x + 0x10 * y) = .ok s' ∧ s'.V 0xF ≤ 1 ∧
      s'.V 0xF = (if s.V x > s.V y then 1 else 0)) ∧
    (∃ s', CPU.Execute rnd s (0x8006 + 0x100 * x + 0x10 * y) = .ok s' ∧ s'.V 0xF ≤ 1 ∧
      s'.V 0xF = s.V x % 2) ∧
    (∃ s', CPU.Execute rnd s (0x8007 + 0x100 * x + 0x10 * y) = .ok s' ∧ s'.V 0xF ≤ 1 ∧
      s'.V 0xF = (if s.V y > s.V x then 1 else 0)) ∧
    (∃ s', CPU.Execute rnd s (0x800E + 0x100 * x + 0x10 * y) = .ok s' ∧ s'.V 0xF ≤ 1 ∧
      s'.V 0xF = s.V x / 128 % 2) ∧
    (∀ n s', n < 16 → CPU.Execute rnd s (0xD000 + 0x100 * x + 0x10 * y + n) = .ok s' →
      (s'.V 0xF = 0 ∨ s'.V 0xF = 1) ∧
      (s'.V 0xF = 1 ↔ ∃ k p,
        (spriteCells s.Memory s.I (s.V x) (s.V y) n)[k]? = some p ∧
        (gridAfter s.G ((spriteCells s.Memory s.I (s.V x) (s.V y) n).take k)).Read
          (p.1 % s.G.Width) (p.2 % s.G.Height) = .ok true ∧
        (gridAfter s.G ((spriteCells s.Memory s.I (s.V x) (s.V y) n).take (k + 1))).Read
          (p.1 % s.G.Width) (p.2 % s.G.Height) = .ok false)) ∧
    (x ≠ 0xF → ∀ kk, kk < 256 →
      (∃ s', CPU.Execute rnd s (0x6000 + 0x100 * x + kk) = .ok s' ∧ s'.V 0xF = s.V 0xF) ∧
      (∃ s', CPU.Execute rnd s (0x7000 + 0x100 * x + kk) = .ok s' ∧ s'.V 0xF = s.V 0xF)) ∧
    (x ≠ 0xF → ∀ m, m < 4 →
      ∃ s', CPU.Execute rnd s (0x8000 + 0x100 * x + 0x10 * y + m) = .ok s' ∧
        s'.V 0xF = s.V 0xF) ∧
    (∃ s', CPU.Execute rnd s (0xF01E + 0x100 * x) = .ok s' ∧ s'.V = s.V) := by
  have hvx := hs.1 x hx
  have hvy := hs.1 y hy
  have sum : (s.V x + s.V y) % 65536 = s.V x + s.V y := by omega
  refine ⟨?_, ?_, ?_, ?_, ?_, ?_, ?_, ?_, ?_⟩
  · rw [show 0x8004 + 0x100 * x + 0x10 * y = 0x8000 + 0x100 * x + 0x10 * y + 4 by omega]
    obtain ⟨s', h, hf⟩ := Execute_flag rnd s x y 4 hx hy (Or.inl rfl)
    rw [if_pos rfl, sum] at hf
    exact ⟨s', h, by rw [hf]; split <;> omega, hf⟩
  · rw [show 0x8005 + 0x100 * x + 0x10 * y = 0x8000 + 0x100 * x + 0x10 * y + 5 by omega]
    obtain ⟨s', h, hf⟩ := Execute_flag rnd s x y 5 hx hy (Or.inr (Or.inl rfl))
    norm_num at hf
    exact ⟨s', h, by rw [hf]; split <;> omega, hf⟩
  · rw [show 0x8006 + 0x100 * x + 0x10 * y = 0x8000 + 0x100 * x + 0x10 * y + 6 by omega]
    obtain ⟨s', h, hf⟩ := Execute_flag rnd s x y 6 hx hy (Or.inr (Or.inr (Or.inl rfl)))
    norm_num at hf
    exact ⟨s', h, by rw [hf]; omega, hf⟩
  · rw [show 0x8007 + 0x100 * x + 0x10 * y = 0x8000 + 0x100 * x + 0x10 * y + 7 by omega]
    obtain ⟨s', h, hf⟩ := Execute_flag rnd s x y 7 hx hy
      (Or.inr (Or.inr (Or.inr (Or.inl rfl))))
    norm_num at hf
    exact ⟨s', h, by rw [hf]; split <;> omega, hf⟩
  · rw [show 0x800E + 0x100 * x + 0x10 * y = 0x8000 + 0x100 * x + 0x10 * y + 14 by omega]
    obtain ⟨s', h, hf⟩ := Execute_flag rnd s x y 14 hx hy
      (Or.inr (Or.inr (Or.inr (Or.inr rfl))))
    norm_num at hf
    exact ⟨s', h, by rw [hf]; omega, hf⟩
  · intro n s' hn h
    exact (draw_ok_spec rnd s x y n hx hy hn hs hg s' h).2
  · intro hxF kk hkk
    refine ⟨⟨_, Execute_ld rnd s x kk hx hkk, ?_⟩, ⟨_, Execute_addi rnd s x kk hx hkk, ?_⟩⟩
    · show store s.V x kk 0xF = s.V 0xF
      unfold store
      rw [if_neg (fun h => hxF h.symm)]
    · show store s.V x ((s.V x + kk) % 256) 0xF = s.V 0xF
      unfold store
      rw [if_neg (fun h => hxF h.symm)]
  · intro hxF m hm
    obtain ⟨v, h⟩ := Execute_logic rnd s x y m hx hy hm
    refine ⟨_, h, ?_⟩
    show store s.V x v 0xF = s.V 0xF
    unfold store
    rw [if_neg (fun h => hxF h.symm)]
  · have h1 : (0xF01E + 0x100 * x) / 4096 % 16 = 15 := by omega
    have h3 : (0xF01E + 0x100 * x) % 256 = 0x1E := by omega
    rw [Execute_familyF _ _ _ h1]
    simp only [CPU.execMisc, dec_lo8, h3]
    norm_num

theorem flag_register_witness :
    ∃ s', CPU.Execute 0 (bootWith fun _ => 200) (0x8004 + 0x100 * 0xF + 0x10 * 1) = .ok s' ∧
      s'.V 0xF = 1 := by
  obtain ⟨s', h, _, hf⟩ := (flag_register 0 (bootWith fun _ => 200) 0xF 1 (by decide)
    (by decide) (bootWith_WF _ (fun _ _ => by decide)) bootG_WF).1
  exact ⟨s', h, by simpa [bootWith] using hf⟩

/-! ## Drawing twice -/

theorem rowCells_row (b : Nat) (vx vy : Int) (row : Nat) :
    ∀ q ∈ rowCells b vx vy row, q.2 = vy + (row : Int) := by
  intro q hq
  unfold rowCells at hq
  rw [List.mem_filterMap] at hq
  obtain ⟨col, _, hq⟩ := hq
  split at hq
  · cases hq; rfl
  · cases hq

theorem rowCells_nodup (b : Nat) (vx vy : Int) (row : Nat) : (rowCells b vx vy row).Nodup := by
  unfold rowCells
  apply List.Nodup.filterMap _ (List.nodup_range 8)
  intro a a' q hq hq'
  rw [Option.mem_def] at hq hq'
  split at hq
  · split at hq'
    · cases hq
      simp only [Option.some.injEq, Prod.mk.injEq, and_true] at hq'
      omega
    · cases hq'
  · cases hq

/-- The coordinates of a draw are pairwise different. -/
theorem spriteCells_nodup (mem : Nat → Nat) (i : Nat) (vx vy : Int) (n : Nat) :
    (spriteCells mem i vx vy n).Nodup := by
  unfold spriteCells
  rw [List.nodup_flatMap]
  refine ⟨fun r _ => rowCells_nodup _ _ _ _, ?_⟩
  apply List.Nodup.pairwise_of_forall_ne (List.nodup_range n)
  intro r1 _ r2 _ hne
  show List.Disjoint _ _
  intro q h1 h2
  have e1 := rowCells_row _ _ _ _ q h1
  have e2 := rowCells_row _ _ _ _ q h2
  omega


/-- The cells of the grid after a successful toggle: the target is negated,
the others are as before. -/
theorem at?_Toggle (g : CLIGraphics) (hg : g.WF) (x y : Int)
    (hx : -g.Width ≤ x ∧ x < 2 * g.Width) (hy : -g.Height ≤ y ∧ y < 2 * g.Height) :
    ∃ v g1, g.Toggle x y = .ok (v, g1) ∧ ∀ i j, g1.at? i j =
      (g.at? i j).map fun b =>
        xor b (decide (i = (x % g.Width).toNat ∧ j = (y % g.Height).toNat)) := by
  obtain ⟨v, hat, hT⟩ := Toggle_ok g hg x y hx hy
  refine ⟨v, _, hT, fun i j => ?_⟩
  rw [at?_put]
  by_cases h : i = (x % g.Width).toNat ∧ j = (y % g.Height).toNat
  · rw [if_pos h, hat, h.1, h.2, hat]
    simp
  · rw [if_neg h]
    simp [h]

/-- Toggling a list of in-range coordinates negates each cell as many times
as the list hits it; the hit pattern depends only on the dimensions. -/
theorem at?_gridAfter (w h : Int) (cells : List (Int × Int)) :
    ∃ hits : Nat → Nat → Bool, ∀ g : CLIGraphics, g.WF → g.Width = w → g.Height = h →
      (∀ q ∈ cells, (-w ≤ q.1 ∧ q.1 < 2 * w) ∧ (-h ≤ q.2 ∧ q.2 < 2 * h)) →
      ∀ i j, (gridAfter g cells).at? i j = (g.at? i j).map fun b => xor b (hits i j) := by
  induction cells with
  | nil =>
    refine ⟨fun _ _ => false, fun g _ _ _ _ i j => ?_⟩
    simp [gridAfter]
  | cons p ps ih =>
    obtain ⟨hits, hh⟩ := ih
    refine ⟨fun i j => xor (decide (i = (p.1 % w).toNat ∧ j = (p.2 % h).toNat)) (hits i j),
      fun g hg hw hhh hin i j => ?_⟩
    obtain ⟨hx, hy⟩ := hin p (List.mem_cons_self _ _)
    rw [← hw] at hx
    rw [← hhh] at hy
    obtain ⟨v, g1, hT, hcell⟩ := at?_Toggle g hg p.1 p.2 hx hy
    obtain ⟨_, _, _, hg1, hw1, hh1⟩ := Toggle_spec g hg p.1 p.2 v g1 hT
    have hcons : gridAfter g (p :: ps) = gridAfter g1 ps := by simp [gridAfter, hT]
    rw [hcons, hh g1 hg1 (hw1.trans hw) (hh1.trans hhh)
      (fun q hq => hin q (List.mem_cons_of_mem _ hq)) i j, hcell i j, hw, hhh]
    cases g.at? i j with
    | none => rfl
    | some b => simp [Bool.xor_assoc]

/-- Two well-formed grids of the same dimensions with the same cells are equal. -/
theorem grid_ext (g1 g2 : CLIGraphics) (h1 : g1.WF) (h2 : g2.WF) (hw : g1.Width = g2.Width)
    (hh : g1.Height = g2.Height) (hc : ∀ i j, g1.at? i j = g2.at? i j) : g1 = g2 := by
  obtain ⟨G1, W1, H1⟩ := g1
  obtain ⟨G2, W2, H2⟩ := g2
  simp only at hw hh
  subst hw hh
  have hl1 := h1.2.2.1
  have hl2 := h2.2.2.1
  simp only at hl1 hl2
  have hG : G1 = G2 := by
    apply List.ext_getElem?
    intro j
    by_cases hj : j < G1.length
    · have hj2 : j < G2.length := by omega
      rw [List.getElem?_eq_getElem hj, List.getElem?_eq_getElem hj2]
      congr 1
      apply List.ext_getElem?
      intro i
      have := hc i j
      simp only [CLIGraphics.at?, List.getElem?_eq_getElem hj, List.getElem?_eq_getElem hj2]
        at this
      exact this
    · have hj2 : ¬ j < G2.length := by omega
      rw [List.getElem?_eq_none (by omega), List.getElem?_eq_none (by omega)]
  rw [hG]

/-- Toggling the same in-range coordinates twice restores the grid. -/
theorem gridAfter_twice (g : CLIGraphics) (hg : g.WF) (cells : List (Int × Int))
    (hin : ∀ q ∈ cells, (-g.Width ≤ q.1 ∧ q.1 < 2 * g.Width) ∧
      (-g.Height ≤ q.2 ∧ q.2 < 2 * g.Height)) :
    gridAfter (gridAfter g cells) cells = g := by
  obtain ⟨hits, hh⟩ := at?_gridAfter g.Width g.Height cells
  obtain ⟨hg1, hw1, hh1⟩ := gridAfter_WF cells g hg
  obtain ⟨hg2, hw2, hh2⟩ := gridAfter_WF cells (gridAfter g cells) hg1
  apply grid_ext _ _ hg2 hg (hw2.trans hw1) (hh2.trans hh1)
  intro i j
  rw [hh _ hg1 hw1 hh1 hin i j, hh g hg rfl rfl hin i j]
  cases g.at? i j with
  | none => rfl
  | some b => simp [Bool.xor_assoc]


/-- A draw whose sprite lies in memory and whose coordinates all lie within
the single-wrap range returns normally. -/
theorem Execute_draw_inrange (rnd : Nat) (s : CPU) (x y n : Nat) (hx : x < 16) (hy : y < 16)
    (hn : n < 16) (hs : ∀ a, a < 4096 → s.Memory a < 256) (hg : s.G.WF) (hI : s.I + n ≤ 4096)
    (hin : ∀ q ∈ spriteCells s.Memory s.I (s.V x) (s.V y) n,
      (-s.G.Width ≤ q.1 ∧ q.1 < 2 * s.G.Width) ∧ (-s.G.Height ≤ q.2 ∧ q.2 < 2 * s.G.Height)) :
    ∃ vF, CPU.Execute rnd s (0xD000 + 0x100 * x + 0x10 * y + n) =
      .ok { s with PC := s.PC + 2,
                   G := gridAfter s.G (spriteCells s.Memory s.I (s.V x) (s.V y) n),
                   V := store s.V 0xf vF } := by
  have h1 : (0xD000 + 0x100 * x + 0x10 * y + n) / 4096 % 16 = 13 := by omega
  have h2 : (0xD000 + 0x100 * x + 0x10 * y + n) / 256 % 16 = x := by omega
  have h3 : (0xD000 + 0x100 * x + 0x10 * y + n) / 16 % 16 = y := by omega
  have h4 : (0xD000 + 0x100 * x + 0x10 * y + n) % 16 = n := by omega
  have e := drawRows_eq s.Memory s.I (s.V x) (s.V y) hs n 0 s.G 0 (Or.inr (by omega))
  rw [← List.range_eq_range'] at e
  have e' : CPU.drawRows s.Memory s.I (s.V x) (s.V y) n 0 s.G 0
      = toggleList s.G 0 (spriteCells s.Memory s.I (s.V x) (s.V y) n) := e
  obtain ⟨vF, hv⟩ := toggleList_inrange _ s.G 0 hg hin
  refine ⟨vF, ?_⟩
  rw [Execute_familyD _ _ _ h1, h2, h3, h4, e', hv]
  rfl

/-- C20: on a well-formed machine with a 64 x 32 display, for x and y both
different from 0xF, Vx <= 120, Vy + n <= 64 and I + n <= 4096, executing
`Dxyn` twice in succession returns no error either time and leaves the
display exactly as it was before the first execution; memory, I and every
register other than VF are unchanged. Within one such draw the coordinates
asked for are pairwise different and no two of them wrap to the same cell. -/
theorem draw_twice (rnd rnd2 : Nat) (s : CPU) (x y n : Nat) (hx : x < 16) (hy : y < 16)
    (hn : n < 16) (hxF : x ≠ 0xF) (hyF : y ≠ 0xF) (hs : s.WF) (hg : s.G.WF)
    (hW : s.G.Width = 64) (hH : s.G.Height = 32) (hvx : s.V x ≤ 120) (hvy : s.V y + n ≤ 64)
    (hI : s.I + n ≤ 4096) :
    (∃ s1 s2, CPU.Execute rnd s (0xD000 + 0x100 * x + 0x10 * y + n) = .ok s1 ∧
      CPU.Execute rnd2 s1 (0xD000 + 0x100 * x + 0x10 * y + n) = .ok s2 ∧
      s2.G = s.G ∧ s2.Memory = s.Memory ∧ s2.I = s.I ∧ ∀ i, i ≠ 0xF → s2.V i = s.V i) ∧
    (spriteCells s.Memory s.I (s.V x) (s.V y) n).Nodup ∧
    (∀ p ∈ spriteCells s.Memory s.I (s.V x) (s.V y) n,
      ∀ q ∈ spriteCells s.Memory s.I (s.V x) (s.V y) n,
        p.1 % 64 = q.1 % 64 → p.2 % 32 = q.2 % 32 → p = q) := by
  have hge := spriteCells_ge s.Memory s.I (s.V x) (s.V y) n
  have hin : ∀ q ∈ spriteCells s.Memory s.I (s.V x) (s.V y) n,
      (-s.G.Width ≤ q.1 ∧ q.1 < 2 * s.G.Width) ∧
        (-s.G.Height ≤ q.2 ∧ q.2 < 2 * s.G.Height) := by
    intro q hq
    have := hge q hq
    rw [hW, hH]
    omega
  refine ⟨?_, spriteCells_nodup _ _ _ _ _, ?_⟩
  · obtain ⟨vF, h1⟩ := Execute_draw_inrange rnd s x y n hx hy hn hs.2.1 hg hI hin
    obtain ⟨hg1, hw1, hh1⟩ := gridAfter_WF (spriteCells s.Memory s.I (s.V x) (s.V y) n) s.G hg
    have hvx1 : store s.V 0xf vF x = s.V x := by
      unfold store; rw [if_neg hxF]
    have hvy1 : store s.V 0xf vF y = s.V y := by
      unfold store; rw [if_neg hyF]
    have hs1 : ∀ a, a < 4096 → s.Memory a < 256 := hs.2.1
    have h2 := Execute_draw_inrange rnd2
      { s with PC := s.PC + 2,
               G := gridAfter s.G (spriteCells s.Memory s.I (s.V x) (s.V y) n),
               V := store s.V 0xf vF } x y n hx hy hn hs1 hg1 hI
      (by
        intro q hq
        simp only [hvx1, hvy1] at hq
        simp only [hw1, hh1]
        exact hin q hq)
    obtain ⟨vF2, h2⟩ := h2
    simp only [hvx1, hvy1] at h2
    rw [gridAfter_twice s.G hg _ hin] at h2
    refine ⟨_, _, h1, h2, rfl, rfl, rfl, ?_⟩
    intro i hi
    show store (store s.V 0xf vF) 0xf vF2 i = s.V i
    unfold store
    rw [if_neg hi, if_neg hi]
  · intro p hp q hq e1 e2
    have bp := hge p hp
    have bq := hge q hq
    have := hs.1 x hx
    have := hs.1 y hy
    apply Prod.ext <;> omega


theorem draw_twice_witness :
    ∃ s1 s2, CPU.Execute 0 boot (0xD000 + 0x100 * 0 + 0x10 * 1 + 5) = .ok s1 ∧
      CPU.Execute 0 s1 (0xD000 + 0x100 * 0 + 0x10 * 1 + 5) = .ok s2 ∧
      s2.G = boot.G ∧ s2.Memory = boot.Memory ∧ s2.I = boot.I ∧
      ∀ i, i ≠ 0xF → s2.V i = boot.V i :=
  (draw_twice 0 0 boot 0 1 5 (by decide) (by decide) (by decide) (by decide) (by decide)
    boot_WF bootG_WF rfl rfl (by decide) (by decide) (by decide)).1

/-! ## A draw that erases pixels -/

theorem glyphGrid_WF : glyphGrid.WF ∧ glyphGrid.Width = 64 ∧ glyphGrid.Height = 32 :=
  gridAfter_WF (spriteCells boot.Memory boot.I 0 0 5) boot.G bootG_WF

set_option maxRecDepth 100000 in
theorem draw_collision_witness :
    ∃ s', CPU.Execute 0 glyphDrawn (0xD000 + 0x100 * 0 + 0x10 * 1 + 5) = .ok s' ∧
      s'.V 0xF = 1 ∧
      (spriteCells glyphDrawn.Memory glyphDrawn.I 0 0 5)[0]? = some (0, 0) ∧
      glyphDrawn.G.Read 0 0 = .ok true ∧ s'.G.Read 0 0 = .ok false := by
  have hwf : glyphDrawn.WF := boot_WF
  have hgw : glyphDrawn.G.WF := glyphGrid_WF.1
  have hin : ∀ q ∈ spriteCells glyphDrawn.Memory glyphDrawn.I
      (glyphDrawn.V 0) (glyphDrawn.V 1) 5,
      (-glyphDrawn.G.Width ≤ q.1 ∧ q.1 < 2 * glyphDrawn.G.Width) ∧
        (-glyphDrawn.G.Height ≤ q.2 ∧ q.2 < 2 * glyphDrawn.G.Height) := by
    intro q hq
    have hb := spriteCells_ge _ _ _ _ _ q hq
    have e0 : ((glyphDrawn.V 0 : Nat) : Int) = 0 := rfl
    have e1 : ((glyphDrawn.V 1 : Nat) : Int) = 0 := rfl
    have ew : glyphDrawn.G.Width = 64 := glyphGrid_WF.2.1
    have eh : glyphDrawn.G.Height = 32 := glyphGrid_WF.2.2
    rw [e0, e1] at hb
    rw [ew, eh]
    omega
  obtain ⟨vF, h⟩ := Execute_draw_inrange 0 glyphDrawn 0 1 5 (by decide) (by decide)
    (by decide) boot_WF.2.1 hgw (by decide) hin
  have key := (draw_collision 0 glyphDrawn 0 1 5 (by decide) (by decide) (by decide) hwf
    hgw).1 _ h
  refine ⟨_, h, key.2.2.mpr ⟨0, (0, 0), by decide, rfl, rfl⟩, by decide, rfl, ?_⟩
  rw [key.1]
  rfl

end Chip8
